import Mathlib

/-
Verification of the metadata-filtering, hybrid-retrieval and chat subsystems of
the Zotero RAG assistant backend.

The Lean definitions below are a shallow embedding of the Python source:

  * `backend/metadata_utils.py`   — where-clause builder, splitter, evaluator
  * `backend/vector_db.py`        — ChromaClient: its own evaluator, BM25 query,
                                    RRF hybrid fusion, indexed-item-id set
  * `backend/interface.py`        — indexing workers, chat pipeline
  * `backend/metadata_extractor.py` — LLM filter extraction
  * `backend/conversation_store.py` — get_messages signature (for the call-site check)

Python scalar values are modelled by `PyVal`; Python dicts used as where
clauses are modelled by the mutual inductive `Clause`/`ClauseItem`; evaluation
that can raise in Python (`TypeError`/`AttributeError` on bad comparisons) is
modelled in the `Option` monad, `none` meaning an exception, faithfully
preserving Python's short-circuit order.
-/

namespace ZoteroRag

/-- A Python scalar value as it occurs in chunk metadata and filter targets:
an int, a str, or `None`. -/
inductive PyVal where
  | int (n : Int)
  | str (s : String)
  | null
  deriving DecidableEq

/-- Python `==` on scalars: values of different types are unequal, `None == None`. -/
def pyEq : PyVal → PyVal → Bool
  | .int a, .int b => a == b
  | .str a, .str b => a == b
  | .null, .null => true
  | _, _ => false

/-- Python `str(v)` on our scalars (`str(None) = "None"`, ints in decimal). -/
def pyStr : PyVal → String
  | .int n => toString n
  | .str s => s
  | .null => "None"

/-- Python `c.lower()` on one character (ASCII case mapping, as in the
queries and metadata at issue). -/
def lowerChar (c : Char) : Char :=
  if 65 ≤ c.toNat && c.toNat ≤ 90 then Char.ofNat (c.toNat + 32) else c

/-- Python `s.lower()`. -/
def strLower (s : String) : String :=
  String.mk (s.toList.map lowerChar)

/-- Python three-way comparison on scalars; `none` models the `TypeError`
raised on cross-type or `None` comparisons. -/
def pyCompare : PyVal → PyVal → Option Ordering
  | .int a, .int b => some (compare a b)
  | .str a, .str b =>
      some (if a < b then Ordering.lt else if b < a then Ordering.gt else Ordering.eq)
  | _, _ => none

/-- Does `sub` occur at the head of `hay`? (helper for substring search) -/
def charsLead : List Char → List Char → Bool
  | [], _ => true
  | _ :: _, [] => false
  | a :: s, b :: h => a == b && charsLead s h

/-- Does `sub` occur anywhere in `hay`? (helper for substring search) -/
def charsHave (sub : List Char) : List Char → Bool
  | [] => charsLead sub []
  | l@(_ :: h) => charsLead sub l || charsHave sub h

/-- Python `sub in hay` for strings (substring containment). -/
def strHas (hay sub : String) : Bool :=
  charsHave sub.toList hay.toList

/-- The target of a comparison operator: a scalar or a list of scalars
(lists appear as the targets of `$in`/`$nin`). -/
inductive Target where
  | scalar (v : PyVal)
  | listT (vs : List PyVal)
  deriving DecidableEq

/-- The value attached to a field key in a where clause: either a dict of
operators (for example the dict written `$gte: 2015` in the source) or a bare
scalar (direct equality). -/
inductive FieldCond where
  | ops (l : List (String × Target))
  | direct (v : PyVal)
  deriving DecidableEq

mutual
/-- A where clause: a Python dict, i.e. an ordered list of key/value entries. -/
inductive Clause where
  | dict (items : List ClauseItem)

/-- One key/value entry of a where-clause dict.  The keys `$and`, `$or`,
`$not` carry sub-clauses; any other key is a metadata field name. -/
inductive ClauseItem where
  | andOp (cs : List Clause)
  | orOp (cs : List Clause)
  | notOp (c : Clause)
  | cond (field : String) (fc : FieldCond)
end

/-- Chunk metadata: a Python dict of scalar values. -/
def Meta := List (String × PyVal)

/-- Python `metadata.get(key)`: first binding of the key, `None` when absent. -/
def metaGet (m : Meta) (k : String) : PyVal :=
  match m.find? (fun p => p.1 == k) with
  | some p => p.2
  | none => .null

/-- Python `field_value == target` where the target may be a list. -/
def targetEq (fv : PyVal) : Target → Bool
  | .scalar w => pyEq fv w
  | .listT _ => false

/-- One operator test of `metadata_utils._matches_where_clause` (the branch
over `op`): `some b` when Python would return a verdict for the operator,
`none` when Python raises.  An unrecognised operator is skipped (`some true`). -/
def muOpTest (fv : PyVal) (op : String) (t : Target) : Option Bool :=
  if op == "$eq" then some (targetEq fv t)
  else if op == "$ne" then some (!targetEq fv t)
  else if op == "$gt" then
    match t with
    | .scalar w => (pyCompare fv w).map (fun o => o == Ordering.gt)
    | .listT _ => none
  else if op == "$gte" then
    match t with
    | .scalar w => (pyCompare fv w).map (fun o => o != Ordering.lt)
    | .listT _ => none
  else if op == "$lt" then
    match t with
    | .scalar w => (pyCompare fv w).map (fun o => o == Ordering.lt)
    | .listT _ => none
  else if op == "$lte" then
    match t with
    | .scalar w => (pyCompare fv w).map (fun o => o != Ordering.gt)
    | .listT _ => none
  else if op == "$contains" then
    match t with
    | .scalar (.str sub) => some (strHas (strLower (pyStr fv)) (strLower sub))
    | _ => none
  else if op == "$in" then
    match t with
    | .listT vs => some (vs.any (pyEq fv))
    | .scalar (.str s) =>
        match fv with
        | .str sub => some (strHas s sub)
        | _ => none
    | .scalar _ => none
  else if op == "$nin" then
    match t with
    | .listT vs => some (!vs.any (pyEq fv))
    | .scalar (.str s) =>
        match fv with
        | .str sub => some (!strHas s sub)
        | _ => none
    | .scalar _ => none
  else some true

/-- Sequential conjunction of the operator tests of one field condition,
short-circuiting on the first failed test, as the Python loop does. -/
def muOpList (fv : PyVal) : List (String × Target) → Option Bool
  | [] => some true
  | (op, t) :: rest =>
    match muOpTest fv op t with
    | none => none
    | some false => some false
    | some true => muOpList fv rest

/-- Field-level test of `metadata_utils._matches_where_clause`. -/
def muField (m : Meta) (f : String) : FieldCond → Option Bool
  | .ops l => muOpList (metaGet m f) l
  | .direct v => some (pyEq (metaGet m f) v)

mutual
/-- `metadata_utils._matches_where_clause(metadata, where)`, in the `Option`
monad (`none` = Python exception); the client-side predicate evaluator. -/
def muClause (m : Meta) : Clause → Option Bool
  | .dict items => muItems m items

/-- The loop over the where-dict entries: all must hold; returns `False`
at the first failing entry. -/
def muItems (m : Meta) : List ClauseItem → Option Bool
  | [] => some true
  | it :: rest =>
    match muItem m it with
    | none => none
    | some false => some false
    | some true => muItems m rest

/-- One entry of the where dict. -/
def muItem (m : Meta) : ClauseItem → Option Bool
  | .andOp cs => muAll m cs
  | .orOp cs => muAny m cs
  | .notOp c =>
    match muClause m c with
    | none => none
    | some b => some (!b)
  | .cond f fc => muField m f fc

/-- Python `all(...)` over sub-clauses, short-circuiting. -/
def muAll (m : Meta) : List Clause → Option Bool
  | [] => some true
  | c :: rest =>
    match muClause m c with
    | none => none
    | some false => some false
    | some true => muAll m rest

/-- Python `any(...)` over sub-clauses, short-circuiting. -/
def muAny (m : Meta) : List Clause → Option Bool
  | [] => some false
  | c :: rest =>
    match muClause m c with
    | none => none
    | some true => some true
    | some false => muAny m rest
end

/-- One operator test of `ChromaClient._matches_where_clause` in
`vector_db.py`.  Identical to the metadata_utils one except `$contains`,
which is case-SENSITIVE there (`if target not in str(field_value)`). -/
def ccOpTest (fv : PyVal) (op : String) (t : Target) : Option Bool :=
  if op == "$contains" then
    match t with
    | .scalar (.str sub) => some (strHas (pyStr fv) sub)
    | _ => none
  else muOpTest fv op t

/-- Sequential conjunction of ChromaClient operator tests. -/
def ccOpList (fv : PyVal) : List (String × Target) → Option Bool
  | [] => some true
  | (op, t) :: rest =>
    match ccOpTest fv op t with
    | none => none
    | some false => some false
    | some true => ccOpList fv rest

/-- Field-level test of `ChromaClient._matches_where_clause`: for an operator
dict the method first returns `False` outright when the field value is `None`
(absent key); a bare scalar is a direct equality with no such check. -/
def ccField (m : Meta) (f : String) : FieldCond → Option Bool
  | .ops l =>
    match metaGet m f with
    | .null => some false
    | fv => ccOpList fv l
  | .direct v => some (pyEq (metaGet m f) v)

mutual
/-- `ChromaClient._matches_where_clause(metadata, where)` from
`vector_db.py`: the evaluator applied to BM25 results.  Note that it
RETURNS as soon as it sees a `$and` / `$or` / `$not` key, ignoring any
later entries of the dict, unlike the metadata_utils evaluator. -/
def ccClause (m : Meta) : Clause → Option Bool
  | .dict items => ccItems m items

/-- The loop over the where-dict entries of the ChromaClient evaluator. -/
def ccItems (m : Meta) : List ClauseItem → Option Bool
  | [] => some true
  | .andOp cs :: _ => ccAll m cs
  | .orOp cs :: _ => ccAny m cs
  | .notOp c :: _ =>
    match ccClause m c with
    | none => none
    | some b => some (!b)
  | .cond f fc :: rest =>
    match ccField m f fc with
    | none => none
    | some false => some false
    | some true => ccItems m rest

/-- Python `all(...)` over sub-clauses for the ChromaClient evaluator. -/
def ccAll (m : Meta) : List Clause → Option Bool
  | [] => some true
  | c :: rest =>
    match ccClause m c with
    | none => none
    | some false => some false
    | some true => ccAll m rest

/-- Python `any(...)` over sub-clauses for the ChromaClient evaluator. -/
def ccAny (m : Meta) : List Clause → Option Bool
  | [] => some false
  | c :: rest =>
    match ccClause m c with
    | none => none
    | some true => some true
    | some false => ccAny m rest
end

/-- Occurrence test for `$contains` in one field condition, as
`_has_contains` sees it (an operator key equal to the literal `$contains`). -/
def hcField : FieldCond → Bool
  | .ops l => l.any (fun p => p.1 == "$contains")
  | .direct _ => false

mutual
/-- `_has_contains(clause)` from `metadata_utils.separate_where_clauses`:
does the clause contain a `$contains` operator anywhere? -/
def hcClause : Clause → Bool
  | .dict items => hcItems items

/-- Auxiliary loop of `_has_contains` over dict entries. -/
def hcItems : List ClauseItem → Bool
  | [] => false
  | it :: rest => hcItem it || hcItems rest

/-- One dict entry: a key equal to `$contains`, a nested dict, or a list of
nested dicts may witness the occurrence. -/
def hcItem : ClauseItem → Bool
  | .andOp cs => hcList cs
  | .orOp cs => hcList cs
  | .notOp c => hcClause c
  | .cond f fc => f == "$contains" || hcField fc

/-- `_has_contains` over a list of sub-clauses. -/
def hcList : List Clause → Bool
  | [] => false
  | c :: rest => hcClause c || hcList rest
end

/-- Python `"$and" in clause` followed by `clause["$and"]`. -/
def findAnd : List ClauseItem → Option (List Clause)
  | [] => none
  | .andOp cs :: _ => some cs
  | _ :: rest => findAnd rest

/-- Python `"$or" in clause`. -/
def findOr : List ClauseItem → Option (List Clause)
  | [] => none
  | .orOp cs :: _ => some cs
  | _ :: rest => findOr rest

/-- The partition of the `$and` conditions of `_extract_conditions`:
conditions with `$contains` go client-side, the rest go to the store,
order preserved. -/
def partitionContains : List Clause → List Clause × List Clause
  | [] => ([], [])
  | c :: rest =>
    let p := partitionContains rest
    if hcClause c then (p.1, c :: p.2) else (c :: p.1, p.2)

/-- `_extract_conditions(clause)` of `separate_where_clauses`. -/
def extractConditions (c : Clause) : List Clause × List Clause :=
  match c with
  | .dict items =>
    match findAnd items with
    | some cs => partitionContains cs
    | none =>
      match findOr items with
      | some _ => if hcClause c then ([], [c]) else ([c], [])
      | none => if hcClause c then ([], [c]) else ([c], [])

/-- Rebuilding one side of the split: empty list becomes `None`, a single
condition stays bare, several are joined under `$and`. -/
def combineConds : List Clause → Option Clause
  | [] => none
  | [c] => some c
  | cs => some (.dict [.andOp cs])

/-- `separate_where_clauses(where)` from `metadata_utils.py`:
the (store-compatible, client-side) split of a filter predicate. -/
def separateWhereClauses : Option Clause → Option Clause × Option Clause
  | none => (none, none)
  | some w =>
    let p := extractConditions w
    (combineConds p.1, combineConds p.2)

/-- The UI display-name → Zotero internal-name mapping used by
`build_metadata_where_clause` for item types. -/
def itemTypeMapping : List (String × String) :=
  [("Journal Article", "journalArticle"),
   ("Book", "book"),
   ("Book Section", "bookSection"),
   ("Conference Paper", "conferencePaper"),
   ("Thesis", "thesis"),
   ("Preprint", "preprint"),
   ("Web Page", "webpage"),
   ("Report", "report"),
   ("Presentation", "presentation"),
   ("Manuscript", "manuscript")]

/-- Python `item_type_mapping.get(display_type, display_type)`. -/
def mapTypeName (k : String) : String :=
  match itemTypeMapping.find? (fun p => p.1 == k) with
  | some p => p.2
  | none => k

/-- A single-operator leaf clause, e.g. the dict written
`year: ($gte: 2015)` in the source. -/
def leafOp (f op : String) (t : Target) : Clause :=
  .dict [.cond f (.ops [(op, t)])]

/-- `build_metadata_where_clause(...)` from `metadata_utils.py`.  Arguments
follow the Python signature; `Option`s model Python `None`, and Python
truthiness is respected (`if tags:` skips both `None` and the empty list,
`if title:` also skips the empty string). -/
def buildMetadataWhereClause
    (yearMin yearMax : Option Int)
    (tags collections : Option (List String))
    (title author : Option String)
    (itemTypes : Option (List String)) : Option Clause :=
  let yearConds : List Clause :=
    (match yearMin with
     | some y => [leafOp "year" "$gte" (.scalar (.int y))]
     | none => []) ++
    (match yearMax with
     | some y => [leafOp "year" "$lte" (.scalar (.int y))]
     | none => [])
  let tagConds : List Clause :=
    match tags with
    | some [] => []
    | some [t] => [leafOp "tags" "$contains" (.scalar (.str t))]
    | some ts => [.dict [.orOp (ts.map (fun t => leafOp "tags" "$contains" (.scalar (.str t))))]]
    | none => []
  let collConds : List Clause :=
    match collections with
    | some [] => []
    | some [c] => [leafOp "collections" "$contains" (.scalar (.str c))]
    | some cs => [.dict [.orOp (cs.map (fun c => leafOp "collections" "$contains" (.scalar (.str c))))]]
    | none => []
  let titleConds : List Clause :=
    match title with
    | some "" => []
    | some t => [leafOp "title" "$contains" (.scalar (.str t))]
    | none => []
  let authorConds : List Clause :=
    match author with
    | some "" => []
    | some a => [leafOp "authors" "$contains" (.scalar (.str a))]
    | none => []
  let typeConds : List Clause :=
    match itemTypes with
    | some [] => []
    | some [t] => [leafOp "item_type" "$eq" (.scalar (.str (mapTypeName t)))]
    | some ts => [leafOp "item_type" "$in" (.listT (ts.map (fun t => .str (mapTypeName t))))]
    | none => []
  match yearConds ++ tagConds ++ collConds ++ titleConds ++ authorConds ++ typeConds with
  | [] => none
  | [c] => some c
  | cs => some (.dict [.andOp cs])

mutual
/-- The predicate language of the specification: a leaf is one field with one
operator, compounds are single-key dicts over a list (or one) of predicates. -/
inductive Pred where
  | leaf (f op : String) (t : Target)
  | pand (ps : PredList)
  | por (ps : PredList)
  | pnot (p : Pred)

/-- A list of predicates (mutual with `Pred` for clean induction). -/
inductive PredList where
  | nil
  | cons (p : Pred) (ps : PredList)
end

mutual
/-- The where-clause dict denoted by a predicate. -/
def Pred.denote : Pred → Clause
  | .leaf f op t => leafOp f op t
  | .pand ps => .dict [.andOp ps.denotes]
  | .por ps => .dict [.orOp ps.denotes]
  | .pnot p => .dict [.notOp p.denote]

/-- Denotations of a predicate list. -/
def PredList.denotes : PredList → List Clause
  | .nil => []
  | .cons p ps => p.denote :: ps.denotes
end

mutual
/-- Number of `$contains` occurrences in a predicate (operator keys, plus a
field literally named `$contains`). -/
def Pred.containsCount : Pred → Nat
  | .leaf f op _ =>
    (if f == "$contains" then 1 else 0) + (if op == "$contains" then 1 else 0)
  | .pand ps => ps.containsCount
  | .por ps => ps.containsCount
  | .pnot p => p.containsCount

/-- Total `$contains` occurrences of a predicate list. -/
def PredList.containsCount : PredList → Nat
  | .nil => 0
  | .cons p ps => p.containsCount + ps.containsCount
end

/-- Number of `$contains` keys in a field condition (independent spec-side
count, to compare against the code's `_has_contains`). -/
def fieldContainsCount : FieldCond → Nat
  | .ops l => (l.filter (fun p => p.1 == "$contains")).length
  | .direct _ => 0

mutual
/-- Spec-side count of `$contains` occurrences anywhere in a clause. -/
def clauseContainsCount : Clause → Nat
  | .dict items => itemsContainsCount items

/-- Count over dict entries. -/
def itemsContainsCount : List ClauseItem → Nat
  | [] => 0
  | it :: rest => itemContainsCount it + itemsContainsCount rest

/-- Count inside one dict entry. -/
def itemContainsCount : ClauseItem → Nat
  | .andOp cs => listContainsCount cs
  | .orOp cs => listContainsCount cs
  | .notOp c => clauseContainsCount c
  | .cond f fc => (if f == "$contains" then 1 else 0) + fieldContainsCount fc

/-- Count over a list of sub-clauses. -/
def listContainsCount : List Clause → Nat
  | [] => 0
  | c :: rest => clauseContainsCount c + listContainsCount rest
end

/-- Count of an optional clause (`None` holds no operator at all). -/
def optContainsCount : Option Clause → Nat
  | none => 0
  | some c => clauseContainsCount c

mutual
/-- Do all leaf tests of the predicate evaluate without a Python exception on
metadata `m`?  (Pure type-compatibility of the comparisons.) -/
def Pred.leavesOk (m : Meta) : Pred → Bool
  | .leaf f op t => (muField m f (.ops [(op, t)])).isSome
  | .pand ps => ps.leavesOk m
  | .por ps => ps.leavesOk m
  | .pnot p => p.leavesOk m

/-- Leaf-totality over a predicate list. -/
def PredList.leavesOk (m : Meta) : PredList → Bool
  | .nil => true
  | .cons p ps => p.leavesOk m && ps.leavesOk m
end

/-- Evaluation of one side of a split: a `None` part imposes no constraint. -/
def evalPart (m : Meta) : Option Clause → Option Bool
  | none => some true
  | some c => muClause m c

/-- The Boolean value of a clause whose evaluation does not raise. -/
def evalB (m : Meta) (c : Clause) : Bool :=
  (muClause m c).getD false

/-- Stable-descending insertion: `x` (earlier in the original order) is placed
before the first element whose score does not exceed `x`'s, so equal scores
keep their original relative order. -/
def insertDesc {α : Type} (score : α → ℚ) (x : α) : List α → List α
  | [] => [x]
  | y :: rest => if score y ≤ score x then x :: y :: rest else y :: insertDesc score x rest

/-- Stable sort by descending score: the embedding of Python's stable
`sorted(keys, key=score, reverse=True)`. -/
def sortDescStable {α : Type} (score : α → ℚ) (l : List α) : List α :=
  l.foldr (insertDesc score) []

/-- `rrf_scores.get(doc_id, 0)`. -/
def lookupScore (acc : List (String × ℚ)) (id : String) : ℚ :=
  match acc.find? (fun p => p.1 == id) with
  | some p => p.2
  | none => 0

/-- One dict update `rrf_scores[doc_id] = rrf_scores.get(doc_id, 0) + delta`:
an existing key keeps its position, a new key is appended (Python dicts keep
insertion order). -/
def addScore (acc : List (String × ℚ)) (id : String) (delta : ℚ) : List (String × ℚ) :=
  match acc with
  | [] => [(id, delta)]
  | (k, v) :: rest =>
    if k == id then (k, v + delta) :: rest else (k, v) :: addScore rest id delta

/-- The `for rank, doc_id in enumerate(...)` accumulation of RRF
contributions `1 / (rrf_k + rank + 1)` (0-based `rank`). -/
def foldRanks (rrfK : ℚ) : List (String × ℚ) → List String → Nat → List (String × ℚ)
  | acc, [], _ => acc
  | acc, id :: rest, rank =>
    foldRanks rrfK (addScore acc id (1 / (rrfK + (rank : ℚ) + 1))) rest (rank + 1)

/-- Specification-side total RRF contribution of one ranking to one id:
the sum of `1 / (rrf_k + rank + 1)` over the positions of `x` in the list,
ranks counted from `rank`. -/
def rankContrib (rrfK : ℚ) : List String → Nat → String → ℚ
  | [], _, _ => 0
  | id :: rest, rank, x =>
    (if x == id then 1 / (rrfK + (rank : ℚ) + 1) else 0)
      + rankContrib rrfK rest (rank + 1) x

/-- The `rrf_scores` dict of `ChromaClient.query_hybrid_rrf`: dense ranks
first, then sparse ranks. -/
def rrfScores (rrfK : ℚ) (dense sparse : List String) : List (String × ℚ) :=
  foldRanks rrfK (foldRanks rrfK [] dense 0) sparse 0

/-- `sorted(rrf_scores.keys(), key=lambda x: rrf_scores[x], reverse=True)[:k]`:
the fused id ranking of `query_hybrid_rrf`. -/
def rrfSortedIds (rrfK : ℚ) (dense sparse : List String) (k : Nat) : List String :=
  let sc := rrfScores rrfK dense sparse
  (sortDescStable (lookupScore sc) (sc.map Prod.fst)).take k

/-- First occurrences of a list, in order — the candidate (key) order of the
RRF score dict. -/
def firstOcc (l : List String) : List String :=
  l.foldl (fun acc x => if acc.contains x then acc else acc ++ [x]) []

/-- Position of an element (first index with `findIdx`). -/
def idxIn {α : Type} [BEq α] (l : List α) (x : α) : Nat :=
  l.findIdx (fun y => y == x)

/-- Python truthiness of a scalar (`0`, `""` and `None` are falsy). -/
def pyTruthy : PyVal → Bool
  | .int n => n != 0
  | .str s => s != ""
  | .null => false

/-- Python `v or d` on scalars. -/
def pyOr (v d : PyVal) : PyVal :=
  if pyTruthy v then v else d

/-- The per-chunk metadata dict written by the indexing workers
(`_index_library_worker` and `_index_library_incremental_worker` build the
same dict, lines 160–181 and 326–346 of `interface.py`).  Note `year` is
`meta_src.get("date") or ""` — the raw date value, or the empty string. -/
def workerChunkMeta (metaSrc : Meta) (i : Nat) (page : PyVal) : Meta :=
  [("item_id", .str (pyStr (metaGet metaSrc "item_id"))),
   ("chunk_idx", .int i),
   ("title", pyOr (metaGet metaSrc "title") (.str "")),
   ("authors", pyOr (metaGet metaSrc "authors") (.str "")),
   ("tags", pyOr (metaGet metaSrc "tags") (.str "")),
   ("collections", pyOr (metaGet metaSrc "collections") (.str "")),
   ("year", pyOr (metaGet metaSrc "date") (.str "")),
   ("pdf_path", pyOr (metaGet metaSrc "pdf_path") (.str "")),
   ("page", page)]

/-- Is `c` a word character for the `\b` boundary of the migration's year
regex (`[A-Za-z0-9_]`)? -/
def isWordChar (c : Char) : Bool :=
  c.isAlphanum || c == '_'

/-- Digit value of a char. -/
def digitVal (c : Char) : Nat :=
  c.toNat - '0'.toNat

/-- Leftmost match of the migration's year regex `\b(19|20)\d{2}\b`
(`MetadataMigration.migrate_all_metadata`, `metadata_migration.py`). -/
def findYear : Option Char → List Char → Option Int
  | _, [] => none
  | prev, c1 :: rest =>
    match rest with
    | c2 :: c3 :: c4 :: rest2 =>
      if (match prev with | none => true | some p => !isWordChar p) &&
         ((c1 == '1' && c2 == '9') || (c1 == '2' && c2 == '0')) &&
         c3.isDigit && c4.isDigit &&
         (match rest2 with | [] => true | r :: _ => !isWordChar r) then
        some (Int.ofNat (1000 * digitVal c1 + 100 * digitVal c2 + 10 * digitVal c3 + digitVal c4))
      else findYear (some c1) rest
    | _ => none

/-- The year the migration writes for a chunk: the parsed integer year of the
catalogue's date string, or the sentinel `-1` (`new_meta["year"]` handling in
`MetadataMigration._migrate_batch`). -/
def migrationYearMeta (dateStr : String) : Int :=
  let yearInt : Option Int :=
    if dateStr == "" then none else findYear none dateStr.toList
  match yearInt with
  | some y => y
  | none => -1

/-- A chunk as stored in the collection, as far as the incremental-indexing
claim needs it: its chunk id and its `item_id` metadata value. -/
structure Chunk where
  id : String
  itemId : String
  deriving DecidableEq

/-- The deterministic environment of an indexing job: the catalogue's items
(their raw `item_id` values) and, for each item, the number of chunks the
extract → chunk → embed → write pipeline produces for it (0 when the item is
skipped for any of the recorded reasons, or yields no chunks). -/
structure IndexEnv where
  rawItems : List PyVal
  processChunks : PyVal → Nat

/-- `VectorStore.get_indexed_item_ids()` membership: is some chunk's
(string-normalised) `item_id` equal to `sid`? -/
def isIndexed (store : List Chunk) (sid : String) : Bool :=
  store.any (fun c => c.itemId == sid)

/-- Chunks written for one successfully processed item: ids
`"<item_id>:<i>"`, metadata `item_id = str(raw id)`. -/
def chunksFor (env : IndexEnv) (v : PyVal) : List Chunk :=
  (List.range (env.processChunks v)).map (fun i => ⟨pyStr v ++ ":" ++ toString i, pyStr v⟩)

/-- The items an incremental job attempts: catalogue items whose
string-normalised id is not in `get_indexed_item_ids()`
(`_index_library_incremental_worker`, steps `all_item_ids - indexed_ids`). -/
def incrementalAttempted (env : IndexEnv) (store : List Chunk) : List PyVal :=
  env.rawItems.filter (fun v => !isIndexed store (pyStr v))

/-- One incremental indexing job: process each attempted item, appending its
chunks to the store. -/
def incrementalRun (env : IndexEnv) (store : List Chunk) : List Chunk :=
  (incrementalAttempted env store).foldl (fun s v => s ++ chunksFor env v) store

/-- The BM25 sidecar data as loaded from disk for one query: the BM25 scores
of each corpus document for the query's tokens, and the parallel chunk-id
list `bm25_ids`. -/
structure Bm25Data where
  scores : List ℚ
  ids : List String

/-- The embedding of `np.argsort(scores)[::-1]`: corpus indices in descending
score order (tie order is unspecified by numpy's quicksort; any descending
arrangement is a faithful model). -/
def argsortDesc (scores : List ℚ) : List Nat :=
  sortDescStable (fun i => scores.getD i 0) (List.range scores.length)

/-- `ChromaClient.query_bm25`: `none` data models the absent index file
(`_load_bm25_index` leaves `bm25_index = None`); `present` models the
`self.collection.get(ids=[doc_id])` existence check. -/
def queryBm25 (d : Option Bm25Data) (present : String → Bool) (k : Nat) :
    List (String × ℚ) :=
  match d with
  | none => []
  | some data =>
    ((argsortDesc data.scores).take k).filterMap (fun i =>
      let sc := data.scores.getD i 0
      if sc > 0 && present (data.ids.getD i "") then some (data.ids.getD i "", sc)
      else none)

/-- The list comprehension `[r for r in rs if p(r)]` where the test may raise. -/
def filterOptList {α : Type} (p : α → Option Bool) : List α → Option (List α)
  | [] => some []
  | a :: rest =>
    match p a with
    | none => none
    | some b => (filterOptList p rest).map (fun l => if b then a :: l else l)

/-- One BM25 result dict (`query_bm25` returns id, score, document, metadata). -/
structure BmRes where
  id : String
  score : ℚ
  document : String
  metadata : Meta

/-- The client-side filtering of BM25 results in `query_hybrid_rrf`
(line 253 of `vector_db.py`): it uses ChromaClient's OWN evaluator. -/
def bm25ClientFilter (rs : List BmRes) (cw : Clause) : Option (List BmRes) :=
  filterOptList (fun r => ccClause r.metadata cw) rs

/-- A ChromaDB query-result structure (lists nested per query). -/
structure ChromaResults where
  documents : List (List String)
  metadatas : List (List Meta)
  ids : List (List String)
  distances : List (List ℚ)

/-- Indices of the metadata rows accepted by the metadata_utils evaluator
(the `filtered` index list of `apply_client_side_filters`). -/
def matchIdx (cw : Clause) : List Meta → Nat → Option (List Nat)
  | [], _ => some []
  | m :: rest, i =>
    match muClause m cw with
    | none => none
    | some b => (matchIdx cw rest (i + 1)).map (fun l => if b then i :: l else l)

/-- `[xs[i] for i in idxs]` with Python's IndexError as `none`. -/
def pickAt {α : Type} (l : List α) (idxs : List Nat) : Option (List α) :=
  idxs.mapM (fun i => l.get? i)

/-- `metadata_utils.apply_client_side_filters(results, client_where)`:
filters the dense results with the (case-insensitive) metadata_utils
evaluator. -/
def applyClientSideFilters (r : ChromaResults) (cw : Option Clause) :
    Option ChromaResults :=
  match cw with
  | none => some r
  | some cw =>
    match r.documents with
    | [] => some r
    | docs0 :: _ =>
      if docs0 == [] then some r
      else
        let metas := r.metadatas.headD []
        let ids := r.ids.headD []
        let dists := r.distances.headD []
        match matchIdx cw metas 0 with
        | none => none
        | some filtered =>
          match pickAt docs0 filtered, pickAt metas filtered,
                pickAt ids filtered, pickAt dists filtered with
          | some d, some m, some i, some di => some ⟨[d], [m], [i], [di]⟩
          | _, _, _, _ => none

/-- The JSON object parsed from the LLM response, viewed through the
`extracted.get(...)` accesses of `MetadataExtractor._extract_with_llm`
(absent fields read as `None`). -/
structure RawExtraction where
  yearMin : Option Int
  yearMax : Option Int
  tags : Option (List String)
  collections : Option (List String)
  author : Option String
  title : Option String
  itemTypes : Option (List String)
  deriving DecidableEq

/-- The filter dict returned by the extractor. -/
structure Filters where
  yearMin : Option Int
  yearMax : Option Int
  tags : List String
  collections : List String
  author : Option String
  title : Option String
  itemTypes : List String
  hasFilters : Bool
  deriving DecidableEq

/-- The `_EMPTY` sentinel of `metadata_extractor.py`. -/
def emptyFilters : Filters :=
  ⟨none, none, [], [], none, none, [], false⟩

/-- Python `x or None` for an optional string (the empty string is falsy). -/
def orNoneStr : Option String → Option String
  | some s => if s == "" then none else some s
  | none => none

/-- Python truthiness of an optional int (`None` and `0` are falsy). -/
def optIntTruthy : Option Int → Bool
  | some n => n != 0
  | none => false

/-- The successful branch of `_extract_with_llm`: assemble the filters dict
and set `has_filters` by Python truthiness of the seven fields. -/
def buildExtractedFilters (r : RawExtraction) : Filters :=
  let tags := r.tags.getD []
  let collections := r.collections.getD []
  let itemTypes := r.itemTypes.getD []
  let author := orNoneStr r.author
  let title := orNoneStr r.title
  let has :=
    optIntTruthy r.yearMin || optIntTruthy r.yearMax ||
    !tags.isEmpty || !collections.isEmpty ||
    author.isSome || title.isSome || !itemTypes.isEmpty
  ⟨r.yearMin, r.yearMax, tags, collections, author, title, itemTypes, has⟩

/-- `MetadataExtractor.extract_filters`: any exception in the LLM call or in
JSON parsing (the `Except.error` case) yields the `_EMPTY` sentinel. -/
def extractFilters (llmResult : Except Unit RawExtraction) : Filters :=
  match llmResult with
  | .error _ => emptyFilters
  | .ok r => buildExtractedFilters r

/-- A snippet dict as built by `ZoteroChatbot.chat` (step 3 output). -/
structure Snippet where
  citationId : Nat
  snippet : String
  title : PyVal
  year : PyVal
  authors : PyVal
  pdfPath : PyVal
  page : PyVal
  deriving DecidableEq

/-- A citation dict as built by `ZoteroChatbot.chat`. -/
structure Citation where
  id : Nat
  title : PyVal
  year : PyVal
  authors : PyVal
  pdfPath : PyVal
  deriving DecidableEq

/-- Python string slicing `s[:n]` (by code points). -/
def strTake (s : String) (n : Nat) : String :=
  String.mk (s.toList.take n)

/-- Python tuple equality on the `(title, year, pdf_path)` citation key. -/
def keyEq (a b : PyVal × PyVal × PyVal) : Bool :=
  pyEq a.1 b.1 && pyEq a.2.1 b.2.1 && pyEq a.2.2 b.2.2

/-- `paper_snippet_count.get(paper_id, 0)`. -/
def countGet (l : List (String × Nat)) (k : String) : Nat :=
  match l.find? (fun p => p.1 == k) with
  | some p => p.2
  | none => 0

/-- Dict update for the per-paper snippet counter. -/
def countSet : List (String × Nat) → String → Nat → List (String × Nat)
  | [], k, v => [(k, v)]
  | (a, b) :: rest, k, v =>
    if a == k then (a, v) :: rest else (a, b) :: countSet rest k v

/-- The snippet/citation-building loop of `ZoteroChatbot.chat`
(lines 630–665 of `interface.py`): per-paper cap of 3, total cap of 6,
citation ids assigned in first-occurrence order of `(title, year, pdf_path)`. -/
def buildSnips : List (String × Meta) → List Snippet →
    List ((PyVal × PyVal × PyVal) × Nat) → List (String × Nat) →
    List Snippet × List ((PyVal × PyVal × PyVal) × Nat)
  | [], snips, cmap, _ => (snips, cmap)
  | (doc, meta) :: rest, snips, cmap, counts =>
    let title := pyOr (metaGet meta "title") (.str "Untitled")
    let year := pyOr (metaGet meta "year") (.str "")
    let authors := pyOr (metaGet meta "authors") (.str "")
    let pdfPath := pyOr (metaGet meta "pdf_path") (.str "")
    let page := metaGet meta "page"
    let key := (title, year, pdfPath)
    let paperId := pyStr title ++ "_" ++ pyStr year
    if 3 ≤ countGet counts paperId then
      buildSnips rest snips cmap counts
    else
      let counts2 := countSet counts paperId (countGet counts paperId + 1)
      let cmap2 :=
        if (cmap.find? (fun p => keyEq p.1 key)).isSome then cmap
        else cmap ++ [(key, cmap.length + 1)]
      let cid := ((cmap2.find? (fun p => keyEq p.1 key)).map Prod.snd).getD 0
      let snips2 : List Snippet := snips ++ [⟨cid, strTake doc 800, title, year, authors, pdfPath, page⟩]
      if 6 ≤ snips2.length then (snips2, cmap2)
      else buildSnips rest snips2 cmap2 counts2

/-- `citation_to_authors.get(key, "")`: the authors of the first snippet with
this citation key. -/
def citationAuthors (snips : List Snippet) (key : PyVal × PyVal × PyVal) : PyVal :=
  match snips.find? (fun s => keyEq (s.title, s.year, s.pdfPath) key) with
  | some s => s.authors
  | none => .str ""

/-- The citations list built from the citation map (first-occurrence order). -/
def buildCitations (snips : List Snippet)
    (cmap : List ((PyVal × PyVal × PyVal) × Nat)) : List Citation :=
  cmap.map (fun p => ⟨p.2, p.1.1, p.1.2.1, citationAuthors snips p.1, p.1.2.2⟩)

/-- Snippets and citations computed by `chat` from the reranked documents and
their metadata. -/
def buildSnippetsAndCitations (docs : List String) (metas : List Meta) :
    List Snippet × List Citation :=
  let r := buildSnips (docs.zip metas) [] [] []
  (r.1, buildCitations r.1 r.2)

/-- The value returned by a chat turn. -/
structure ChatResult where
  summary : String
  citations : List Citation
  snippets : List Snippet
  deriving DecidableEq

/-- Step 5 of `ZoteroChatbot.chat`: the provider call and its exception
handler.  On a provider exception the summary falls back to the first
snippet's text (or an error string when nothing was retrieved); the
citations and snippets computed before the call are returned as they are. -/
def chatGenerate (snips : List Snippet) (cits : List Citation)
    (provider : Except String String) : ChatResult :=
  match provider with
  | .ok content => ⟨content, cits, snips⟩
  | .error e =>
    match snips with
    | s :: _ => ⟨s.snippet, cits, snips⟩
    | [] => ⟨"Error: Failed to generate response. " ++ e, cits, snips⟩

/-- The parameter list of a Python function definition. -/
structure PySig where
  params : List String

/-- `ConversationStore.get_messages(self, session_id)` — its only
parameters (`conversation_store.py`, line 44). -/
def getMessagesSig : PySig :=
  ⟨["self", "session_id"]⟩

/-- Python call binding: every keyword argument must name a parameter that is
not already bound by a positional argument, otherwise the call raises
`TypeError: got an unexpected keyword argument`. -/
def kwargsBindOk (sig : PySig) (posCount : Nat) (kwargs : List String) : Bool :=
  kwargs.all (fun kw => (sig.params.drop posCount).contains kw)

/-- The phases of one `ZoteroChatbot.chat` call, in source order. -/
inductive ChatPhase where
  | loadHistory
  | retrieve
  | generate
  deriving DecidableEq

/-- The `session_id` argument of `chat` as a Python value (a string or
`None`), for the truthiness test `if session_id:`. -/
def sessionVal : Option String → PyVal
  | some s => .str s
  | none => .null

/-- Control flow of `ZoteroChatbot.chat` at the granularity of the claim:
the session branch is guarded by TRUTHINESS (`if session_id:`), so it is
taken only for a non-`None`, non-empty session id; inside it, step 1 calls
`conversation_store.get_messages(session_id, provider_id=...)` — two
positional slots (`self`, `session_id`) plus the keyword `provider_id` —
before retrieval (step 3) is reached.  A falsy session id (`None` or the
empty string) takes the single-turn path.  Returns the phases that ran and
the exception, if one was raised. -/
def chatRun (sessionId : Option String) : List ChatPhase × Option String :=
  if pyTruthy (sessionVal sessionId) then
    if kwargsBindOk getMessagesSig 2 ["provider_id"] then
      ([.loadHistory, .retrieve, .generate], none)
    else
      ([], some "TypeError")
  else ([.retrieve, .generate], none)

/-! ## Helper lemmas -/

theorem muOpList_single (fv : PyVal) (op : String) (t : Target) :
    muOpList fv [(op, t)] = muOpTest fv op t := by
  cases h : muOpTest fv op t with
  | none => simp [muOpList, h]
  | some b => cases b <;> simp [muOpList, h]

theorem muClause_leaf (m : Meta) (f op : String) (t : Target) :
    muClause m (leafOp f op t) = muOpTest (metaGet m f) op t := by
  rw [show muClause m (leafOp f op t) = muItems m [.cond f (.ops [(op, t)])] from rfl]
  rw [show muItems m [.cond f (.ops [(op, t)])] =
      (match muItem m (.cond f (.ops [(op, t)])) with
       | none => none
       | some false => some false
       | some true => muItems m []) from rfl]
  rw [show muItem m (.cond f (.ops [(op, t)])) = muOpList (metaGet m f) [(op, t)] from rfl]
  rw [muOpList_single]
  cases h : muOpTest (metaGet m f) op t with
  | none => rfl
  | some b => cases b <;> rfl

theorem ccClause_leaf (m : Meta) (f op : String) (t : Target) :
    ccClause m (leafOp f op t) =
      (match metaGet m f with
       | .null => some false
       | fv => ccOpList fv [(op, t)]) := by
  rw [show ccClause m (leafOp f op t) = ccItems m [.cond f (.ops [(op, t)])] from rfl]
  cases hv : metaGet m f with
  | null => simp [ccItems, ccField, hv]
  | int n =>
    simp only [ccItems, ccField, hv]
    cases h : ccOpList (.int n) [(op, t)] with
    | none => rfl
    | some b => cases b <;> rfl
  | str s =>
    simp only [ccItems, ccField, hv]
    cases h : ccOpList (.str s) [(op, t)] with
    | none => rfl
    | some b => cases b <;> rfl

theorem ccOpList_single (fv : PyVal) (op : String) (t : Target) :
    ccOpList fv [(op, t)] = ccOpTest fv op t := by
  cases h : ccOpTest fv op t with
  | none => simp [ccOpList, h]
  | some b => cases b <;> simp [ccOpList, h]

theorem filterOptList_total {α : Type} (p : α → Option Bool) (q : α → Bool)
    (hp : ∀ a, p a = some (q a)) : ∀ l : List α, filterOptList p l = some (l.filter q) := by
  intro l
  induction l with
  | nil => rfl
  | cons a rest ih =>
    simp only [filterOptList, hp a, ih, Option.map_some, List.filter_cons]
    cases hq : q a <;> simp

theorem foldl_appendFn {α β : Type} (f : α → List β) (l : List α) (st : List β) :
    l.foldl (fun s v => s ++ f v) st = st ++ l.foldl (fun s v => s ++ f v) [] := by
  induction l generalizing st with
  | nil => simp
  | cons a rest ih =>
    simp only [List.foldl_cons, List.nil_append]
    rw [ih (st ++ f a), ih (f a), List.append_assoc]

theorem mem_foldl_appendFn {α β : Type} (f : α → List β) (l : List α) (c : β) :
    c ∈ l.foldl (fun s v => s ++ f v) [] ↔ ∃ v ∈ l, c ∈ f v := by
  induction l with
  | nil => simp
  | cons a rest ih =>
    simp only [List.foldl_cons, List.nil_append]
    rw [foldl_appendFn]
    simp [ih]

theorem isIndexed_append (s t : List Chunk) (x : String) :
    isIndexed (s ++ t) x = (isIndexed s x || isIndexed t x) :=
  List.any_append

theorem incrementalRun_decomp (env : IndexEnv) (store : List Chunk) :
    incrementalRun env store =
      store ++ (incrementalAttempted env store).foldl (fun s v => s ++ chunksFor env v) [] :=
  foldl_appendFn _ _ _

theorem chunksFor_second_run_empty (env : IndexEnv) (store : List Chunk) (v : PyVal)
    (hv : v ∈ incrementalAttempted env (incrementalRun env store)) :
    chunksFor env v = [] := by
  rcases List.mem_filter.mp hv with ⟨hraw, hnot⟩
  rw [incrementalRun_decomp, isIndexed_append] at hnot
  simp only [Bool.not_eq_true', Bool.or_eq_false_iff] at hnot
  obtain ⟨hstore, hadded⟩ := hnot
  have hatt1 : v ∈ incrementalAttempted env store :=
    List.mem_filter.mpr ⟨hraw, by simp [hstore]⟩
  cases hn : env.processChunks v with
  | zero => simp [chunksFor, hn]
  | succ n =>
    exfalso
    have hc : (⟨pyStr v ++ ":" ++ toString 0, pyStr v⟩ : Chunk) ∈ chunksFor env v := by
      simp only [chunksFor, List.mem_map]
      exact ⟨0, by simp [hn], rfl⟩
    have hmem : (⟨pyStr v ++ ":" ++ toString 0, pyStr v⟩ : Chunk) ∈
        (incrementalAttempted env store).foldl (fun s v => s ++ chunksFor env v) [] :=
      (mem_foldl_appendFn _ _ _).mpr ⟨v, hatt1, hc⟩
    have : isIndexed ((incrementalAttempted env store).foldl
        (fun s v => s ++ chunksFor env v) []) (pyStr v) = true := by
      apply List.any_eq_true.mpr
      exact ⟨_, hmem, by simp⟩
    rw [this] at hadded
    exact Bool.noConfusion hadded

theorem foldl_appendFn_all_nil {α β : Type} (f : α → List β) (l : List α) (st : List β)
    (h : ∀ v ∈ l, f v = []) : l.foldl (fun s v => s ++ f v) st = st := by
  induction l generalizing st with
  | nil => rfl
  | cons a rest ih =>
    simp only [List.foldl_cons, h a (by simp), List.append_nil]
    exact ih _ (fun v hv => h v (by simp [hv]))

theorem mem_insertDesc {α : Type} (score : α → ℚ) (x z : α) (l : List α) :
    z ∈ insertDesc score x l ↔ z = x ∨ z ∈ l := by
  induction l with
  | nil => simp [insertDesc]
  | cons y rest ih =>
    by_cases hc : score y ≤ score x
    · simp [insertDesc, hc]
    · simp only [insertDesc, if_neg hc, List.mem_cons, ih]
      tauto

theorem pairwise_insertDesc {α : Type} (score : α → ℚ) (x : α) (l : List α)
    (h : l.Pairwise (fun a b => score b ≤ score a)) :
    (insertDesc score x l).Pairwise (fun a b => score b ≤ score a) := by
  induction l with
  | nil => simp [insertDesc]
  | cons y rest ih =>
    rcases List.pairwise_cons.mp h with ⟨hy, hrest⟩
    by_cases hc : score y ≤ score x
    · rw [insertDesc, if_pos hc]
      refine List.pairwise_cons.mpr ⟨?_, h⟩
      intro z hz
      rcases List.mem_cons.mp hz with rfl | hz
      · exact hc
      · exact le_trans (hy z hz) hc
    · rw [insertDesc, if_neg hc]
      refine List.pairwise_cons.mpr ⟨?_, ih hrest⟩
      intro z hz
      rcases (mem_insertDesc score x z rest).mp hz with rfl | hz
      · exact le_of_not_le hc
      · exact hy z hz

theorem pairwise_sortDescStable {α : Type} (score : α → ℚ) (l : List α) :
    (sortDescStable score l).Pairwise (fun a b => score b ≤ score a) := by
  induction l with
  | nil => exact List.Pairwise.nil
  | cons a rest ih => exact pairwise_insertDesc score a _ ih

theorem perm_insertDesc {α : Type} (score : α → ℚ) (x : α) (l : List α) :
    (insertDesc score x l).Perm (x :: l) := by
  induction l with
  | nil => simp [insertDesc]
  | cons y rest ih =>
    by_cases hc : score y ≤ score x
    · rw [insertDesc, if_pos hc]
    · rw [insertDesc, if_neg hc]
      exact (ih.cons y).trans (List.Perm.swap x y rest)

theorem perm_sortDescStable {α : Type} (score : α → ℚ) (l : List α) :
    (sortDescStable score l).Perm l := by
  induction l with
  | nil => exact List.Perm.nil
  | cons a rest ih =>
    exact (perm_insertDesc score a _).trans (ih.cons a)

theorem muClause_andList (m : Meta) (cs : List Clause) :
    muClause m (.dict [.andOp cs]) = muAll m cs := by
  cases h : muAll m cs with
  | none => simp [muClause, muItems, muItem, h]
  | some b => cases b <;> simp [muClause, muItems, muItem, h]

theorem muClause_orList (m : Meta) (cs : List Clause) :
    muClause m (.dict [.orOp cs]) = muAny m cs := by
  cases h : muAny m cs with
  | none => simp [muClause, muItems, muItem, h]
  | some b => cases b <;> simp [muClause, muItems, muItem, h]

theorem muClause_notOp (m : Meta) (c : Clause) :
    muClause m (.dict [.notOp c]) = (muClause m c).map (fun b => !b) := by
  cases h : muClause m c with
  | none => simp [muClause, muItems, muItem, h]
  | some b => cases b <;> simp [muClause, muItems, muItem, h]

theorem muAll_isSome (m : Meta) (cs : List Clause)
    (h : ∀ c ∈ cs, (muClause m c).isSome = true) : (muAll m cs).isSome = true := by
  induction cs with
  | nil => simp [muAll]
  | cons c rest ih =>
    have hc := h c (by simp)
    cases hv : muClause m c with
    | none => rw [hv] at hc; simp at hc
    | some b =>
      cases b with
      | false => simp [muAll, hv]
      | true =>
        simp only [muAll, hv]
        exact ih (fun c hc => h c (by simp [hc]))

theorem muAny_isSome (m : Meta) (cs : List Clause)
    (h : ∀ c ∈ cs, (muClause m c).isSome = true) : (muAny m cs).isSome = true := by
  induction cs with
  | nil => simp [muAny]
  | cons c rest ih =>
    have hc := h c (by simp)
    cases hv : muClause m c with
    | none => rw [hv] at hc; simp at hc
    | some b =>
      cases b with
      | true => simp [muAny, hv]
      | false =>
        simp only [muAny, hv]
        exact ih (fun c hc => h c (by simp [hc]))

theorem muAll_total (m : Meta) (cs : List Clause)
    (h : ∀ c ∈ cs, (muClause m c).isSome = true) :
    muAll m cs = some (cs.all (evalB m)) := by
  induction cs with
  | nil => simp [muAll]
  | cons c rest ih =>
    have hc := h c (by simp)
    cases hv : muClause m c with
    | none => rw [hv] at hc; simp at hc
    | some b =>
      cases b with
      | false => simp [muAll, hv, List.all_cons, evalB]
      | true =>
        simp only [muAll, hv, List.all_cons]
        rw [ih (fun c hc => h c (by simp [hc]))]
        simp [evalB, hv]

theorem partitionContains_eq (cs : List Clause) :
    partitionContains cs
      = (cs.filter (fun c => !hcClause c), cs.filter (fun c => hcClause c)) := by
  induction cs with
  | nil => rfl
  | cons c rest ih =>
    by_cases hc : hcClause c = true <;>
      simp [partitionContains, ih, List.filter_cons, hc]

theorem all_filter_split {α : Type} (p q : α → Bool) (l : List α) :
    l.all p = ((l.filter (fun a => !q a)).all p && (l.filter q).all p) := by
  induction l with
  | nil => rfl
  | cons a rest ih =>
    rw [List.all_cons, ih, List.filter_cons, List.filter_cons]
    cases hq : q a <;> cases hpa : p a <;>
      simp [List.all_cons, hpa, Bool.and_assoc, Bool.and_left_comm]

theorem combineConds_eval (m : Meta) (l : List Clause)
    (h : ∀ c ∈ l, (muClause m c).isSome = true) :
    evalPart m (combineConds l) = some (l.all (evalB m)) := by
  match l with
  | [] => rfl
  | [c] =>
    have hc := h c (by simp)
    cases hv : muClause m c with
    | none => rw [hv] at hc; simp at hc
    | some b =>
      show muClause m c = _
      rw [hv]
      simp [evalB, hv]
  | c1 :: c2 :: rest =>
    show muClause m (.dict [.andOp (c1 :: c2 :: rest)]) = _
    rw [muClause_andList, muAll_total m _ h]

theorem optContainsCount_combine (l : List Clause) :
    optContainsCount (combineConds l) = listContainsCount l := by
  match l with
  | [] => rfl
  | [c] => simp [combineConds, optContainsCount, listContainsCount]
  | c1 :: c2 :: rest =>
    show clauseContainsCount (.dict [.andOp (c1 :: c2 :: rest)]) = _
    simp [clauseContainsCount, itemsContainsCount, itemContainsCount]

mutual

theorem pred_leavesOk_isSome : ∀ (p : Pred) (m : Meta),
    p.leavesOk m = true → (muClause m p.denote).isSome = true
  | .leaf f op t, m, h => by
    rw [show (Pred.leaf f op t).denote = leafOp f op t from rfl, muClause_leaf]
    rw [show (Pred.leaf f op t).leavesOk m
        = (muOpList (metaGet m f) [(op, t)]).isSome from rfl, muOpList_single] at h
    exact h
  | .pand ps, m, h => by
    rw [show (Pred.pand ps).denote = Clause.dict [.andOp ps.denotes] from rfl,
      muClause_andList]
    exact muAll_isSome m ps.denotes (predList_leavesOk_isSome ps m h)
  | .por ps, m, h => by
    rw [show (Pred.por ps).denote = Clause.dict [.orOp ps.denotes] from rfl,
      muClause_orList]
    exact muAny_isSome m ps.denotes (predList_leavesOk_isSome ps m h)
  | .pnot p, m, h => by
    rw [show (Pred.pnot p).denote = Clause.dict [.notOp p.denote] from rfl,
      muClause_notOp]
    have hs := pred_leavesOk_isSome p m h
    cases hv : muClause m p.denote with
    | none => rw [hv] at hs; simp at hs
    | some b => simp

theorem predList_leavesOk_isSome : ∀ (ps : PredList) (m : Meta),
    ps.leavesOk m = true → ∀ c ∈ ps.denotes, (muClause m c).isSome = true
  | .nil, _, _ => by
    intro c hc
    simp [PredList.denotes] at hc
  | .cons p ps, m, h => by
    intro c hc
    have h2 : (p.leavesOk m && ps.leavesOk m) = true := h
    rw [Bool.and_eq_true] at h2
    obtain ⟨h1, h3⟩ := h2
    rcases List.mem_cons.mp (show c ∈ p.denote :: ps.denotes from hc) with rfl | hcm
    · exact pred_leavesOk_isSome p m h1
    · exact predList_leavesOk_isSome ps m h3 c hcm

end

mutual

theorem pred_count_denote : ∀ p : Pred, clauseContainsCount p.denote = p.containsCount
  | .leaf f op t => by
    by_cases hop : (op == "$contains") = true <;>
      simp [Pred.denote, leafOp, clauseContainsCount, itemsContainsCount,
        itemContainsCount, fieldContainsCount, Pred.containsCount, List.filter, hop]
  | .pand ps => by
    simp [Pred.denote, clauseContainsCount, itemsContainsCount, itemContainsCount,
      Pred.containsCount, predList_count_denotes ps]
  | .por ps => by
    simp [Pred.denote, clauseContainsCount, itemsContainsCount, itemContainsCount,
      Pred.containsCount, predList_count_denotes ps]
  | .pnot p => by
    simp [Pred.denote, clauseContainsCount, itemsContainsCount, itemContainsCount,
      Pred.containsCount, pred_count_denote p]

theorem predList_count_denotes : ∀ ps : PredList,
    listContainsCount ps.denotes = ps.containsCount
  | .nil => rfl
  | .cons p ps => by
    simp [PredList.denotes, listContainsCount, PredList.containsCount,
      pred_count_denote p, predList_count_denotes ps]

end

mutual

theorem pred_hc_false_count_zero : ∀ p : Pred,
    hcClause p.denote = false → p.containsCount = 0
  | .leaf f op t, h => by
    rw [show hcClause (Pred.leaf f op t).denote
        = ((f == "$contains" || ((op == "$contains") || false)) || false) from rfl] at h
    simp only [Bool.or_false, Bool.or_eq_false_iff] at h
    simp [Pred.containsCount, h.1, h.2]
  | .pand ps, h => by
    rw [show hcClause (Pred.pand ps).denote = (hcList ps.denotes || false) from rfl] at h
    simp only [Bool.or_false] at h
    exact predList_hc_false_count_zero ps h
  | .por ps, h => by
    rw [show hcClause (Pred.por ps).denote = (hcList ps.denotes || false) from rfl] at h
    simp only [Bool.or_false] at h
    exact predList_hc_false_count_zero ps h
  | .pnot p, h => by
    rw [show hcClause (Pred.pnot p).denote = (hcClause p.denote || false) from rfl] at h
    simp only [Bool.or_false] at h
    exact pred_hc_false_count_zero p h

theorem predList_hc_false_count_zero : ∀ ps : PredList,
    hcList ps.denotes = false → ps.containsCount = 0
  | .nil, _ => rfl
  | .cons p ps, h => by
    rw [show hcList (PredList.cons p ps).denotes
        = (hcClause p.denote || hcList ps.denotes) from rfl] at h
    obtain ⟨h1, h2⟩ := Bool.or_eq_false_iff.mp h
    show p.containsCount + ps.containsCount = 0
    rw [pred_hc_false_count_zero p h1, predList_hc_false_count_zero ps h2]

end

theorem filtered_denotes_count : ∀ ps : PredList,
    listContainsCount (ps.denotes.filter (fun c => !hcClause c)) = 0
  | .nil => rfl
  | .cons p ps => by
    show listContainsCount ((p.denote :: ps.denotes).filter (fun c => !hcClause c)) = 0
    rw [List.filter_cons]
    by_cases hc : hcClause p.denote = true
    · simp only [hc, Bool.not_true]
      rw [if_neg (by simp)]
      exact filtered_denotes_count ps
    · have hc2 : hcClause p.denote = false := by simpa using hc
      simp only [hc2, Bool.not_false, if_true]
      show clauseContainsCount p.denote
          + listContainsCount (ps.denotes.filter (fun c => !hcClause c)) = 0
      rw [pred_count_denote p, pred_hc_false_count_zero p hc2, filtered_denotes_count ps]

theorem separate_pand (ps : PredList) :
    separateWhereClauses (some (Pred.pand ps).denote)
      = (combineConds (ps.denotes.filter (fun c => !hcClause c)),
         combineConds (ps.denotes.filter (fun c => hcClause c))) := by
  rw [show separateWhereClauses (some (Pred.pand ps).denote)
      = (combineConds (partitionContains ps.denotes).1,
         combineConds (partitionContains ps.denotes).2) from rfl, partitionContains_eq]

theorem separate_single (items : List ClauseItem) (hA : findAnd items = none) :
    separateWhereClauses (some (.dict items))
      = if hcClause (.dict items) = true
        then (none, some (.dict items))
        else (some (.dict items), none) := by
  by_cases hc : hcClause (.dict items) = true
  · rw [if_pos hc]
    cases hOr : findOr items <;>
      simp [separateWhereClauses, extractConditions, hA, hOr, hc, combineConds]
  · have hc2 : hcClause (.dict items) = false := by simpa using hc
    rw [if_neg hc]
    cases hOr : findOr items <;>
      simp [separateWhereClauses, extractConditions, hA, hOr, hc2, combineConds]

theorem split_eval_single (p : Pred) (m : Meta) (items : List ClauseItem)
    (hd : p.denote = .dict items) (hA : findAnd items = none)
    (h : p.leavesOk m = true) :
    ∃ a b : Bool,
      evalPart m (separateWhereClauses (some p.denote)).1 = some a ∧
      evalPart m (separateWhereClauses (some p.denote)).2 = some b ∧
      muClause m p.denote = some (a && b) := by
  have hS := pred_leavesOk_isSome p m h
  obtain ⟨v, hv⟩ := Option.isSome_iff_exists.mp hS
  rw [hd] at hv ⊢
  rw [separate_single items hA]
  by_cases hc : hcClause (.dict items) = true
  · rw [if_pos hc]
    exact ⟨true, v, rfl, hv, by rw [hv]; simp⟩
  · rw [if_neg hc]
    exact ⟨v, true, hv, rfl, by rw [hv]; simp⟩

theorem split_store_count_single (p : Pred) (items : List ClauseItem)
    (hd : p.denote = .dict items) (hA : findAnd items = none) :
    optContainsCount (separateWhereClauses (some p.denote)).1 = 0 := by
  rw [hd, separate_single items hA]
  by_cases hc : hcClause (.dict items) = true
  · rw [if_pos hc]
    rfl
  · rw [if_neg hc]
    show clauseContainsCount (.dict items) = 0
    have hc2 : hcClause p.denote = false := by rw [hd]; simpa using hc
    rw [← hd, pred_count_denote p]
    exact pred_hc_false_count_zero p hc2

theorem lookupScore_addScore (acc : List (String × ℚ)) (id : String) (d : ℚ) (x : String) :
    lookupScore (addScore acc id d) x
      = lookupScore acc x + (if x == id then d else 0) := by
  induction acc with
  | nil =>
    by_cases hx : x = id
    · subst hx
      simp [lookupScore, addScore, List.find?]
    · simp [lookupScore, addScore, List.find?,
        beq_eq_false_iff_ne.mpr (fun h => hx h.symm), beq_eq_false_iff_ne.mpr hx]
  | cons kv rest ih =>
    obtain ⟨k, v⟩ := kv
    by_cases hk : k = id
    · subst hk
      by_cases hx : x = k
      · subst hx
        simp [lookupScore, addScore, List.find?]
      · simp [lookupScore, addScore, List.find?,
          beq_eq_false_iff_ne.mpr (fun h => hx h.symm), beq_eq_false_iff_ne.mpr hx]
    · by_cases hx : x = k
      · subst hx
        simp [lookupScore, addScore, List.find?,
          beq_eq_false_iff_ne.mpr hk, beq_eq_false_iff_ne.mpr (fun h => hk h.symm)]
      · have h1 : (k == x) = false := beq_eq_false_iff_ne.mpr (fun h => hx h.symm)
        have h2 : (k == id) = false := beq_eq_false_iff_ne.mpr hk
        simp only [addScore, h2, if_neg]
        simp only [lookupScore, List.find?, h1]
        exact ih

theorem lookupScore_foldRanks (rrfK : ℚ) (l : List String) :
    ∀ (acc : List (String × ℚ)) (s : Nat) (x : String),
      lookupScore (foldRanks rrfK acc l s) x
        = lookupScore acc x + rankContrib rrfK l s x := by
  induction l with
  | nil =>
    intro acc s x
    simp [foldRanks, rankContrib]
  | cons id rest ih =>
    intro acc s x
    show lookupScore (foldRanks rrfK (addScore acc id (1 / (rrfK + (s : ℚ) + 1))) rest (s + 1)) x = _
    rw [ih, lookupScore_addScore]
    show _ = lookupScore acc x
      + ((if x == id then 1 / (rrfK + (s : ℚ) + 1) else 0) + rankContrib rrfK rest (s + 1) x)
    ring

theorem rankContrib_zero_of_not_mem (rrfK : ℚ) (l : List String) (x : String)
    (h : x ∉ l) : ∀ s : Nat, rankContrib rrfK l s x = 0 := by
  induction l with
  | nil => intro s; rfl
  | cons id rest ih =>
    intro s
    have h1 : x ≠ id := fun he => h (he ▸ List.mem_cons_self id rest)
    have h2 : x ∉ rest := fun hm => h (List.mem_cons_of_mem _ hm)
    simp [rankContrib, beq_eq_false_iff_ne.mpr h1, ih h2 (s + 1)]

theorem rankContrib_nodup (rrfK : ℚ) :
    ∀ (l : List String), l.Nodup → ∀ (s : Nat) (x : String),
      rankContrib rrfK l s x
        = if x ∈ l then 1 / (rrfK + (s : ℚ) + (idxIn l x : ℚ) + 1) else 0
  | [], _, s, x => by simp [rankContrib]
  | id :: rest, hnd, s, x => by
    obtain ⟨hni, hndr⟩ := List.nodup_cons.mp hnd
    by_cases hx : x = id
    · subst hx
      have hrest : rankContrib rrfK rest (s + 1) x = 0 :=
        rankContrib_zero_of_not_mem rrfK rest x hni (s + 1)
      have hidx : idxIn (x :: rest) x = 0 := by
        simp [idxIn, List.findIdx_cons]
      simp [rankContrib, hrest, hidx, List.mem_cons]
    · have hb : (x == id) = false := beq_eq_false_iff_ne.mpr hx
      have hb2 : (id == x) = false := beq_eq_false_iff_ne.mpr (fun h => hx h.symm)
      have hidx : idxIn (id :: rest) x = idxIn rest x + 1 := by
        simp [idxIn, List.findIdx_cons, hb2]
      rw [show rankContrib rrfK (id :: rest) s x
          = (if x == id then 1 / (rrfK + (s : ℚ) + 1) else 0)
            + rankContrib rrfK rest (s + 1) x from rfl, hb]
      rw [rankContrib_nodup rrfK rest hndr (s + 1) x]
      by_cases hm : x ∈ rest
      · rw [if_pos hm, if_pos (List.mem_cons_of_mem _ hm), hidx]
        push_cast
        ring_nf
      · simp [List.mem_cons, hx, hm]

theorem lookupScore_rrfScores (rrfK : ℚ) (dense sparse : List String)
    (hd : dense.Nodup) (hs : sparse.Nodup) (x : String) :
    lookupScore (rrfScores rrfK dense sparse) x
      = (if x ∈ dense then 1 / (rrfK + (idxIn dense x : ℚ) + 1) else 0)
      + (if x ∈ sparse then 1 / (rrfK + (idxIn sparse x : ℚ) + 1) else 0) := by
  show lookupScore (foldRanks rrfK (foldRanks rrfK [] dense 0) sparse 0) x = _
  rw [lookupScore_foldRanks, lookupScore_foldRanks]
  rw [show lookupScore [] x = 0 from rfl]
  rw [rankContrib_nodup rrfK dense hd 0 x, rankContrib_nodup rrfK sparse hs 0 x]
  by_cases h1 : x ∈ dense <;> by_cases h2 : x ∈ sparse <;> simp [h1, h2]

theorem keys_addScore (acc : List (String × ℚ)) (id : String) (d : ℚ) :
    (addScore acc id d).map Prod.fst
      = if (acc.map Prod.fst).contains id then acc.map Prod.fst
        else acc.map Prod.fst ++ [id] := by
  induction acc with
  | nil => simp [addScore]
  | cons kv rest ih =>
    obtain ⟨k, v⟩ := kv
    by_cases hk : k = id
    · subst hk
      simp [addScore, List.contains_cons]
    · have h2 : (k == id) = false := beq_eq_false_iff_ne.mpr hk
      have h3 : (id == k) = false := beq_eq_false_iff_ne.mpr (fun h => hk h.symm)
      have h4 : (k :: rest.map Prod.fst).contains id = (rest.map Prod.fst).contains id := by
        simp [List.contains_cons, h3]
      rw [show addScore ((k, v) :: rest) id d = (k, v) :: addScore rest id d from by
        simp [addScore, h2]]
      simp only [List.map_cons]
      rw [ih, h4]
      by_cases hc : ((rest.map Prod.fst).contains id) = true
      · rw [if_pos hc, if_pos hc]
      · rw [if_neg hc, if_neg hc, List.cons_append]

theorem keys_foldRanks (rrfK : ℚ) :
    ∀ (l : List String) (acc : List (String × ℚ)) (s : Nat),
      (foldRanks rrfK acc l s).map Prod.fst
        = l.foldl (fun ks x => if ks.contains x then ks else ks ++ [x])
            (acc.map Prod.fst)
  | [], acc, s => rfl
  | id :: rest, acc, s => by
    show (foldRanks rrfK (addScore acc id (1 / (rrfK + (s : ℚ) + 1))) rest (s + 1)).map Prod.fst = _
    rw [keys_foldRanks rrfK rest _ (s + 1), keys_addScore, List.foldl_cons]

theorem keys_rrfScores (rrfK : ℚ) (dense sparse : List String) :
    (rrfScores rrfK dense sparse).map Prod.fst = firstOcc (dense ++ sparse) := by
  show (foldRanks rrfK (foldRanks rrfK [] dense 0) sparse 0).map Prod.fst = _
  rw [keys_foldRanks, keys_foldRanks]
  show _ = (dense ++ sparse).foldl _ []
  rw [List.foldl_append]
  rfl

theorem mem_foldl_firstOcc :
    ∀ (l acc : List String) (x : String),
      x ∈ l.foldl (fun ks y => if ks.contains y then ks else ks ++ [y]) acc →
        x ∈ acc ∨ x ∈ l
  | [], _, _, h => Or.inl h
  | y :: rest, acc, x, h => by
    rcases mem_foldl_firstOcc rest _ x h with hacc | hr
    · dsimp only at hacc
      by_cases hc : acc.contains y = true
      · rw [if_pos hc] at hacc
        exact Or.inl hacc
      · rw [if_neg hc] at hacc
        rcases List.mem_append.mp hacc with h1 | h2
        · exact Or.inl h1
        · simp only [List.mem_singleton] at h2
          subst h2
          exact Or.inr (by simp)
    · exact Or.inr (by simp [hr])

theorem nodup_foldl_firstOcc :
    ∀ (l acc : List String), acc.Nodup →
      (l.foldl (fun ks y => if ks.contains y then ks else ks ++ [y]) acc).Nodup
  | [], _, h => h
  | y :: rest, acc, h => by
    apply nodup_foldl_firstOcc rest
    dsimp only
    by_cases hc : acc.contains y = true
    · rw [if_pos hc]
      exact h
    · rw [if_neg hc]
      have hy : y ∉ acc := by
        intro hm
        exact hc ((List.elem_iff.mpr hm : acc.elem y = true))
      rw [List.nodup_append]
      refine ⟨h, List.nodup_singleton y, ?_⟩
      intro a ha hb
      simp only [List.mem_singleton] at hb
      subst hb
      exact hy ha

theorem idxIn_cons_self (x : String) (l : List String) : idxIn (x :: l) x = 0 := by
  simp [idxIn, List.findIdx_cons]

theorem idxIn_cons_ne (x y : String) (l : List String) (h : y ≠ x) :
    idxIn (x :: l) y = idxIn l y + 1 := by
  simp [idxIn, List.findIdx_cons, beq_eq_false_iff_ne.mpr (fun he => h he.symm)]

theorem nodup_pairwise_idxIn :
    ∀ l : List String, l.Nodup → l.Pairwise (fun a b => idxIn l a < idxIn l b)
  | [], _ => List.Pairwise.nil
  | x :: rest, hnd => by
    obtain ⟨hx, hndr⟩ := List.nodup_cons.mp hnd
    refine List.pairwise_cons.mpr ⟨?_, ?_⟩
    · intro y hy
      have hxy : y ≠ x := fun he => hx (he ▸ hy)
      rw [idxIn_cons_self, idxIn_cons_ne x y rest hxy]
      omega
    · refine List.Pairwise.imp_of_mem ?_ (nodup_pairwise_idxIn rest hndr)
      intro a b ha hb hab
      have hax : a ≠ x := fun he => hx (he ▸ ha)
      have hbx : b ≠ x := fun he => hx (he ▸ hb)
      rw [idxIn_cons_ne x a rest hax, idxIn_cons_ne x b rest hbx]
      omega

theorem pairwise_insertDesc_tie {α : Type} (score : α → ℚ) (f : α → Nat) (x : α) :
    ∀ l : List α,
      l.Pairwise (fun a b => score b < score a ∨ (score a = score b ∧ f a < f b)) →
      l.Pairwise (fun a b => score b ≤ score a) →
      (∀ y ∈ l, f x < f y) →
      (insertDesc score x l).Pairwise
        (fun a b => score b < score a ∨ (score a = score b ∧ f a < f b))
  | [], _, _, _ => by simp [insertDesc]
  | y :: rest, hord, hsorted, hx => by
    obtain ⟨hordy, hordr⟩ := List.pairwise_cons.mp hord
    obtain ⟨hsy, hsr⟩ := List.pairwise_cons.mp hsorted
    by_cases hc : score y ≤ score x
    · rw [insertDesc, if_pos hc]
      refine List.pairwise_cons.mpr ⟨?_, hord⟩
      intro z hz
      rcases List.mem_cons.mp hz with rfl | hz2
      · rcases lt_or_eq_of_le hc with hlt | heq
        · exact Or.inl hlt
        · exact Or.inr ⟨heq.symm, hx z (by simp)⟩
      · have hzy : score z ≤ score y := hsy z hz2
        rcases lt_or_eq_of_le (le_trans hzy hc) with hlt | heq
        · exact Or.inl hlt
        · exact Or.inr ⟨heq.symm, hx z (by simp [hz2])⟩
    · rw [insertDesc, if_neg hc]
      refine List.pairwise_cons.mpr ⟨?_, ?_⟩
      · intro z hz
        rcases (mem_insertDesc score x z rest).mp hz with rfl | hz2
        · exact Or.inl (lt_of_not_le hc)
        · exact hordy z hz2
      · exact pairwise_insertDesc_tie score f x rest hordr hsr
          (fun z hz => hx z (by simp [hz]))

theorem pairwise_sortDescStable_tie {α : Type} (score : α → ℚ) (f : α → Nat) :
    ∀ l : List α,
      l.Pairwise (fun a b => f a < f b) →
      (sortDescStable score l).Pairwise
        (fun a b => score b < score a ∨ (score a = score b ∧ f a < f b))
  | [], _ => List.Pairwise.nil
  | x :: rest, hl => by
    obtain ⟨hxr, hrest⟩ := List.pairwise_cons.mp hl
    refine pairwise_insertDesc_tie score f x (sortDescStable score rest)
      (pairwise_sortDescStable_tie score f rest hrest)
      (pairwise_sortDescStable score rest) ?_
    intro y hy
    exact hxr y ((perm_sortDescStable score rest).mem_iff.mp hy)

/-! ## Claim theorems -/

/-- C1: the spec (and the docstring of `build_metadata_where_clause`) says a
year filter never matches an item with the unknown-year sentinel `year = -1`.
The code disagrees: with only `year_max` set, the built predicate is the
single leaf `year $lte year_max`, and the client-side evaluator accepts a
metadata record with `year = -1` because `-1 <= 2020`.  (With `year_min` set
the sentinel is excluded, which is why the bug is only in the
`year_max`-only case.) -/
theorem C1_year_max_filter_admits_unknown_year :
    buildMetadataWhereClause none (some 2020) none none none none none
      = some (leafOp "year" "$lte" (.scalar (.int 2020))) ∧
    muClause [("year", .int (-1))] (leafOp "year" "$lte" (.scalar (.int 2020)))
      = some true ∧
    muClause [("year", .int (-1))] (leafOp "year" "$gte" (.scalar (.int 2015)))
      = some false :=
  ⟨rfl, rfl, rfl⟩

/-- C2 counterexample: the claim says client-side `$contains` filtering of
the sparse (BM25) results is case-insensitive.  At the concrete record
`title = "Neural Networks"` and search string `"neural"`, the lowercase
containment holds, yet the BM25-side filter of `query_hybrid_rrf` (which
uses `ChromaClient._matches_where_clause`) drops the result. -/
theorem C2_counterexample_bm25_contains_case_sensitive :
    strHas (strLower "Neural Networks") (strLower "neural") = true ∧
    bm25ClientFilter [⟨"c1", 1, "doc", [("title", .str "Neural Networks")]⟩]
        (leafOp "title" "$contains" (.scalar (.str "neural")))
      = some [] :=
  ⟨rfl, rfl⟩

/-- C2 (amended): client-side `$contains` applied to the dense results goes
through `metadata_utils._matches_where_clause` / `apply_client_side_filters`
and is case-insensitive; the sparse (BM25) results in `query_hybrid_rrf` are
filtered with `ChromaClient._matches_where_clause`, whose `$contains` is
case-SENSITIVE and which rejects records lacking the field. -/
theorem C2_contains_client_side_evaluators :
    (∀ (m : Meta) (f s : String),
      muClause m (leafOp f "$contains" (.scalar (.str s)))
        = some (strHas (strLower (pyStr (metaGet m f))) (strLower s))) ∧
    (∀ (m : Meta) (f s : String),
      ccClause m (leafOp f "$contains" (.scalar (.str s)))
        = some (!pyEq (metaGet m f) .null && strHas (pyStr (metaGet m f)) s)) ∧
    (∀ (rs : List BmRes) (f s : String),
      bm25ClientFilter rs (leafOp f "$contains" (.scalar (.str s)))
        = some (rs.filter (fun r =>
            !pyEq (metaGet r.metadata f) .null && strHas (pyStr (metaGet r.metadata f)) s))) ∧
    (∀ (doc cid : String) (dist : ℚ) (m : Meta) (f s : String),
      applyClientSideFilters ⟨[[doc]], [[m]], [[cid]], [[dist]]⟩
          (some (leafOp f "$contains" (.scalar (.str s))))
        = some (if strHas (strLower (pyStr (metaGet m f))) (strLower s)
                then ⟨[[doc]], [[m]], [[cid]], [[dist]]⟩
                else ⟨[[]], [[]], [[]], [[]]⟩)) := by
  have hmu : ∀ (m : Meta) (f s : String),
      muClause m (leafOp f "$contains" (.scalar (.str s)))
        = some (strHas (strLower (pyStr (metaGet m f))) (strLower s)) := by
    intro m f s
    rw [muClause_leaf]
    rfl
  have hcc : ∀ (m : Meta) (f s : String),
      ccClause m (leafOp f "$contains" (.scalar (.str s)))
        = some (!pyEq (metaGet m f) .null && strHas (pyStr (metaGet m f)) s) := by
    intro m f s
    rw [ccClause_leaf]
    cases hv : metaGet m f with
    | null => simp [pyEq]
    | int n =>
      show ccOpList (.int n) [("$contains", .scalar (.str s))] = _
      rw [ccOpList_single]
      simp [ccOpTest, pyEq]
    | str s2 =>
      show ccOpList (.str s2) [("$contains", .scalar (.str s))] = _
      rw [ccOpList_single]
      simp [ccOpTest, pyEq]
  refine ⟨hmu, hcc, ?_, ?_⟩
  · intro rs f s
    exact filterOptList_total _ _ (fun r => hcc r.metadata f s) rs
  · intro doc cid dist m f s
    have h0 : muClause m (leafOp f "$contains" (.scalar (.str s)))
        = some (strHas (strLower (pyStr (metaGet m f))) (strLower s)) := hmu m f s
    simp only [applyClientSideFilters, matchIdx, h0]
    cases hb : strHas (strLower (pyStr (metaGet m f))) (strLower s) <;> rfl

/-- C5: the spec says every chunk written by an indexing job stores `year` as
an integer (with `-1` for unknown), never a string.  The indexing workers in
`interface.py` write `year = meta_src.get("date") or ""` — the raw date
STRING (or the empty string when absent).  The migration
(`metadata_migration.py`) and `metadata_version.py` ("Version 2 = year as
integer") show the integer format is the intended one, so this is a bug in
the workers: freshly indexed chunks are written in the legacy string format. -/
theorem C5_worker_writes_year_as_string :
    metaGet (workerChunkMeta [("item_id", .int 7), ("date", .str "2020-01-15")] 0 (.int 1)) "year"
      = .str "2020-01-15" ∧
    (∀ n : Int, PyVal.str "2020-01-15" ≠ .int n) ∧
    metaGet (workerChunkMeta [("item_id", .int 7)] 0 (.int 1)) "year" = .str "" ∧
    migrationYearMeta "2020-01-15" = 2020 ∧
    migrationYearMeta "" = -1 :=
  ⟨rfl, fun _ h => PyVal.noConfusion h, rfl, rfl, rfl⟩

/-- C8 counterexample: the claim says `has_filters` is true iff at least one
extracted field is non-empty.  For the successfully parsed result with
`year_min = 0` (all other fields null), `year_min` is present yet
`has_filters` is `false`, because the source tests Python truthiness
(`filters["year_min"] or ...`) and `0` is falsy. -/
theorem C8_counterexample_year_zero :
    (extractFilters (.ok ⟨some 0, none, none, none, none, none, none⟩)).hasFilters = false ∧
    (extractFilters (.ok ⟨some 0, none, none, none, none, none, none⟩)).yearMin = some 0 :=
  ⟨rfl, rfl⟩

/-- C8 (amended): on any LM or parse failure `extract_filters` returns the
`_EMPTY` sentinel; in a successfully parsed result `has_filters` is true iff
at least one field is TRUTHY in Python's sense: a year bound that is non-null
and non-zero, a non-empty list, or a non-null non-empty string. -/
theorem C8_extract_filters_failure_and_has_filters :
    extractFilters (.error ()) = emptyFilters ∧
    (∀ r : RawExtraction,
      ((extractFilters (.ok r)).hasFilters = true ↔
        ((∃ n, r.yearMin = some n ∧ n ≠ 0) ∨ (∃ n, r.yearMax = some n ∧ n ≠ 0) ∨
         r.tags.getD [] ≠ [] ∨ r.collections.getD [] ≠ [] ∨
         (∃ a, r.author = some a ∧ a ≠ "") ∨ (∃ t, r.title = some t ∧ t ≠ "") ∨
         r.itemTypes.getD [] ≠ []))) := by
  have hInt : ∀ o : Option Int, optIntTruthy o = true ↔ ∃ n, o = some n ∧ n ≠ 0 := by
    intro o
    cases o with
    | none => simp [optIntTruthy]
    | some n => simp [optIntTruthy]
  have hStr : ∀ o : Option String, (orNoneStr o).isSome = true ↔ ∃ a, o = some a ∧ a ≠ "" := by
    intro o
    cases o with
    | none => simp [orNoneStr]
    | some a =>
      by_cases ha : a = "" <;> simp [orNoneStr, ha]
  have hEmp : ∀ l : List String, (!l.isEmpty) = true ↔ l ≠ [] := by
    intro l
    cases l <;> simp
  refine ⟨rfl, ?_⟩
  intro r
  show (buildExtractedFilters r).hasFilters = true ↔ _
  simp only [buildExtractedFilters, Bool.or_eq_true, hInt, hStr, hEmp, or_assoc]

/-- C9: when the provider `chat` call raises and at least one snippet was
retrieved, the chat turn returns the first snippet's text as the summary, and
the citations and snippets computed before the failure, unchanged. -/
theorem C9_chat_provider_failure_fallback
    (docs : List String) (metas : List Meta) (e : String)
    (s : Snippet) (rest : List Snippet) (cit : List Citation)
    (h : buildSnippetsAndCitations docs metas = (s :: rest, cit)) :
    chatGenerate (buildSnippetsAndCitations docs metas).1
        (buildSnippetsAndCitations docs metas).2 (.error e)
      = ⟨s.snippet, cit, s :: rest⟩ := by
  rw [h]
  rfl

/-- C9 witness. -/
theorem C9_chat_provider_failure_fallback_witness :
    chatGenerate (buildSnippetsAndCitations ["some document text"] [[("title", .str "T")]]).1
        (buildSnippetsAndCitations ["some document text"] [[("title", .str "T")]]).2
        (.error "boom")
      = ⟨"some document text",
         [⟨1, .str "T", .str "", .str "", .str ""⟩],
         [⟨1, "some document text", .str "T", .str "", .str "", .str "", .null⟩]⟩ :=
  C9_chat_provider_failure_fallback ["some document text"] [[("title", .str "T")]] "boom"
    ⟨1, "some document text", .str "T", .str "", .str "", .str "", .null⟩ []
    [⟨1, .str "T", .str "", .str "", .str ""⟩] rfl

/-- C10 counterexample: the claim says EVERY `chat` call with a non-`None`
session id raises a `TypeError` before retrieval, and only session-less
calls run to completion.  The source guards the session branch with
truthiness (`if session_id:`), so the call with the non-`None` session id
`""` skips `get_messages` entirely, performs retrieval, and completes
without raising. -/
theorem C10_counterexample_empty_session_id :
    chatRun (some "") = ([.retrieve, .generate], none) ∧
    (chatRun (some "")).2 = none ∧
    ChatPhase.retrieve ∈ (chatRun (some "")).1 :=
  ⟨rfl, rfl, by decide⟩

/-- C10 (amended): any `ZoteroChatbot.chat` call with a TRUTHY session id —
non-`None` and non-empty — raises a `TypeError` during step 1, before
retrieval, because it calls
`ConversationStore.get_messages(session_id, provider_id=...)` while the
method's definition only has parameters `(self, session_id)`; calls with a
falsy session id (`None` or the empty string) take the single-turn path and
run to completion. -/
theorem C10_truthy_session_chat_type_error :
    (∀ sid : String, sid ≠ "" → chatRun (some sid) = ([], some "TypeError")) ∧
    (∀ sid : String, sid ≠ "" → ChatPhase.retrieve ∉ (chatRun (some sid)).1) ∧
    chatRun none = ([.retrieve, .generate], none) ∧
    chatRun (some "") = ([.retrieve, .generate], none) ∧
    kwargsBindOk getMessagesSig 2 ["provider_id"] = false := by
  have hk : kwargsBindOk getMessagesSig 2 ["provider_id"] = false := rfl
  have hrun : ∀ sid : String, sid ≠ "" → chatRun (some sid) = ([], some "TypeError") := by
    intro sid h
    have ht : pyTruthy (sessionVal (some sid)) = true := by
      simp [sessionVal, pyTruthy, bne_iff_ne, h]
    simp [chatRun, ht, hk]
  refine ⟨hrun, fun sid h => ?_, rfl, rfl, hk⟩
  rw [hrun sid h]
  exact List.not_mem_nil _

/-- C6: the set of items an incremental job attempts is exactly the
catalogue's id set minus `indexed_item_ids()`, both sides normalised to
strings; and a second incremental run on the resulting store attempts only
items that still produce no chunks, so it adds nothing and leaves the store
(and hence the chunk count) unchanged. -/
theorem C6_incremental_subtractive_idempotent :
    (∀ (env : IndexEnv) (store : List Chunk) (s : String),
      (∃ v ∈ incrementalAttempted env store, pyStr v = s) ↔
        ((∃ v ∈ env.rawItems, pyStr v = s) ∧ isIndexed store s = false)) ∧
    (∀ (env : IndexEnv) (store : List Chunk),
      incrementalRun env (incrementalRun env store) = incrementalRun env store) ∧
    (∀ (env : IndexEnv) (store : List Chunk),
      (incrementalRun env (incrementalRun env store)).length
        = (incrementalRun env store).length) := by
  have hsecond : ∀ (env : IndexEnv) (store : List Chunk),
      incrementalRun env (incrementalRun env store) = incrementalRun env store := by
    intro env store
    rw [show incrementalRun env (incrementalRun env store) =
        (incrementalAttempted env (incrementalRun env store)).foldl
          (fun s v => s ++ chunksFor env v) (incrementalRun env store) from rfl]
    exact foldl_appendFn_all_nil _ _ _ (chunksFor_second_run_empty env store)
  refine ⟨?_, hsecond, fun env store => by rw [hsecond]⟩
  intro env store s
  constructor
  · rintro ⟨v, hv, rfl⟩
    rcases List.mem_filter.mp hv with ⟨hraw, hni⟩
    exact ⟨⟨v, hraw, rfl⟩, by simpa using hni⟩
  · rintro ⟨⟨v, hraw, rfl⟩, hni⟩
    exact ⟨v, List.mem_filter.mpr ⟨hraw, by simp [hni]⟩, rfl⟩

/-- C7: `query_bm25` returns the empty list when the on-disk BM25 index is
absent; otherwise it returns at most `k` `(chunk_id, score)` results, every
returned score is strictly positive, and the results are sorted by score
descending. -/
theorem C7_query_bm25_graceful_filtered_sorted :
    (∀ (present : String → Bool) (k : Nat), queryBm25 none present k = []) ∧
    (∀ (d : Bm25Data) (present : String → Bool) (k : Nat),
      (queryBm25 (some d) present k).length ≤ k) ∧
    (∀ (d : Bm25Data) (present : String → Bool) (k : Nat) (r : String × ℚ),
      r ∈ queryBm25 (some d) present k → 0 < r.2) ∧
    (∀ (d : Bm25Data) (present : String → Bool) (k : Nat),
      (queryBm25 (some d) present k).Pairwise (fun a b => b.2 ≤ a.2)) := by
  refine ⟨fun _ _ => rfl, ?_, ?_, ?_⟩
  · intro d present k
    calc (queryBm25 (some d) present k).length
        ≤ ((argsortDesc d.scores).take k).length := List.length_filterMap_le _ _
      _ ≤ k := List.length_take_le _ _
  · intro d present k r hr
    rcases List.mem_filterMap.mp hr with ⟨i, _, hf⟩
    by_cases hc : (decide (d.scores.getD i 0 > 0) && present (d.ids.getD i "")) = true
    · rw [if_pos hc] at hf
      cases hf
      exact of_decide_eq_true (Bool.and_elim_left hc)
    · rw [if_neg hc] at hf
      exact Option.noConfusion hf
  · intro d present k
    have hsorted : ((argsortDesc d.scores).take k).Pairwise
        (fun i j => d.scores.getD j 0 ≤ d.scores.getD i 0) :=
      (pairwise_sortDescStable (fun i => d.scores.getD i 0) _).sublist
        (List.take_sublist _ _)
    refine List.pairwise_filterMap.mpr (hsorted.imp ?_)
    intro i j hij x hx y hy
    by_cases hci : (decide (d.scores.getD i 0 > 0) && present (d.ids.getD i "")) = true
    · rw [if_pos hci] at hx
      by_cases hcj : (decide (d.scores.getD j 0 > 0) && present (d.ids.getD j "")) = true
      · rw [if_pos hcj] at hy
        cases hx
        cases hy
        exact hij
      · rw [if_neg hcj] at hy
        exact absurd hy (by simp)
    · rw [if_neg hci] at hx
      exact absurd hx (by simp)

/-- C3: `separate_where_clauses` is sound and complete on the predicate
language, over metadata on which the predicate's leaf comparisons are
type-compatible (Python would not raise): (i) the store part contains no
`$contains` occurrence; (ii) both parts evaluate without error and the
original predicate's value is the conjunction of the two parts' values, a
`None` part counting as true; (iii) a disjunction containing any `$contains`
is pushed to the client side whole. -/
theorem C3_separate_where_clauses_sound_complete :
    (∀ p : Pred, optContainsCount (separateWhereClauses (some p.denote)).1 = 0) ∧
    (∀ (p : Pred) (m : Meta), p.leavesOk m = true →
      ∃ a b : Bool,
        evalPart m (separateWhereClauses (some p.denote)).1 = some a ∧
        evalPart m (separateWhereClauses (some p.denote)).2 = some b ∧
        muClause m p.denote = some (a && b)) ∧
    (∀ ps : PredList, 0 < (Pred.por ps).containsCount →
      separateWhereClauses (some (Pred.por ps).denote)
        = (none, some (Pred.por ps).denote)) := by
  refine ⟨?_, ?_, ?_⟩
  · intro p
    cases p with
    | pand ps =>
      rw [separate_pand]
      show optContainsCount (combineConds (ps.denotes.filter (fun c => !hcClause c))) = 0
      rw [optContainsCount_combine]
      exact filtered_denotes_count ps
    | leaf f op t => exact split_store_count_single _ _ rfl rfl
    | por ps => exact split_store_count_single _ _ rfl rfl
    | pnot p2 => exact split_store_count_single _ _ rfl rfl
  · intro p m h
    cases p with
    | pand ps =>
      have hmem := predList_leavesOk_isSome ps m h
      have hA : ∀ c ∈ ps.denotes.filter (fun c => !hcClause c),
          (muClause m c).isSome = true :=
        fun c hcm => hmem c (List.mem_of_mem_filter hcm)
      have hB : ∀ c ∈ ps.denotes.filter (fun c => hcClause c),
          (muClause m c).isSome = true :=
        fun c hcm => hmem c (List.mem_of_mem_filter hcm)
      refine ⟨(ps.denotes.filter (fun c => !hcClause c)).all (evalB m),
              (ps.denotes.filter (fun c => hcClause c)).all (evalB m), ?_, ?_, ?_⟩
      · rw [separate_pand]
        exact combineConds_eval m _ hA
      · rw [separate_pand]
        exact combineConds_eval m _ hB
      · rw [show (Pred.pand ps).denote = Clause.dict [.andOp ps.denotes] from rfl,
          muClause_andList, muAll_total m _ hmem]
        exact congrArg some (all_filter_split (evalB m) hcClause ps.denotes)
    | leaf f op t => exact split_eval_single _ m _ rfl rfl h
    | por ps => exact split_eval_single _ m _ rfl rfl h
    | pnot p2 => exact split_eval_single _ m _ rfl rfl h
  · intro ps hcount
    have hc : hcClause (Pred.por ps).denote = true := by
      by_contra hfalse
      have h0 : hcClause (Pred.por ps).denote = false := by simpa using hfalse
      rw [pred_hc_false_count_zero _ h0] at hcount
      exact Nat.lt_irrefl 0 hcount
    rw [show (Pred.por ps).denote = Clause.dict [.orOp ps.denotes] from rfl] at hc ⊢
    rw [separate_single [ClauseItem.orOp ps.denotes] rfl, if_pos hc]

/-- C3 witness: the split equality at the predicate
`$and [year $gte 2015, tags $contains "NLP"]` on the record
`year = 2020, tags = "NLP|ML"`, and the disjunction rule at
`$or [tags $contains "NLP", tags $contains "ML"]`. -/
theorem C3_separate_where_clauses_witness :
    (∃ a b : Bool,
      evalPart [("year", .int 2020), ("tags", .str "NLP|ML")]
          (separateWhereClauses (some (Pred.pand (.cons
            (.leaf "year" "$gte" (.scalar (.int 2015)))
            (.cons (.leaf "tags" "$contains" (.scalar (.str "NLP"))) .nil))).denote)).1
        = some a ∧
      evalPart [("year", .int 2020), ("tags", .str "NLP|ML")]
          (separateWhereClauses (some (Pred.pand (.cons
            (.leaf "year" "$gte" (.scalar (.int 2015)))
            (.cons (.leaf "tags" "$contains" (.scalar (.str "NLP"))) .nil))).denote)).2
        = some b ∧
      muClause [("year", .int 2020), ("tags", .str "NLP|ML")]
          (Pred.pand (.cons (.leaf "year" "$gte" (.scalar (.int 2015)))
            (.cons (.leaf "tags" "$contains" (.scalar (.str "NLP"))) .nil))).denote
        = some (a && b)) ∧
    separateWhereClauses (some (Pred.por (.cons
        (.leaf "tags" "$contains" (.scalar (.str "NLP")))
        (.cons (.leaf "tags" "$contains" (.scalar (.str "ML"))) .nil))).denote)
      = (none, some (Pred.por (.cons
          (.leaf "tags" "$contains" (.scalar (.str "NLP")))
          (.cons (.leaf "tags" "$contains" (.scalar (.str "ML"))) .nil))).denote) :=
  ⟨C3_separate_where_clauses_sound_complete.2.1 _ _ (by decide),
   C3_separate_where_clauses_sound_complete.2.2 _ (by decide)⟩

/-- C10 witness: the amended claim applied at the concrete truthy session
id `"abc"`. -/
theorem C10_truthy_session_chat_type_error_witness :
    ("abc" : String) ≠ "" ∧ chatRun (some "abc") = ([], some "TypeError") :=
  ⟨by decide, C10_truthy_session_chat_type_error.1 "abc" (by decide)⟩

/-- C7 witness: the positivity property applied to a concrete loaded index
with scores `[1, 0, 3]`, where the query returns `[("c", 3), ("a", 1)]`. -/
theorem C7_query_bm25_witness :
    ("c", (3 : ℚ)) ∈ queryBm25 (some ⟨[1, 0, 3], ["a", "b", "c"]⟩) (fun _ => true) 5 ∧
    0 < (("c", (3 : ℚ))).2 :=
  ⟨by decide,
   C7_query_bm25_graceful_filtered_sorted.2.2.1 ⟨[1, 0, 3], ["a", "b", "c"]⟩
     (fun _ => true) 5 ("c", (3 : ℚ)) (by decide)⟩

/-- C4: Reciprocal Rank Fusion in `query_hybrid_rrf`.  (i) Each candidate's
score is the sum, over the rankings containing it, of `1/(rrf_k + rank)`
with 1-based ranks (absent rankings contribute 0).  (ii) The output id set
is a subset of the union of the two input id sets.  (iii) The candidate
order is dense-list order then sparse-list order of first appearance, and
the fused ranking is a permutation of the candidates sorted by strictly
descending score with ties resolved by that appearance order.  (iv) The
spec's literal example: dense `[A,B,C]`, sparse `[C,D,A]`, `rrf_k = 60`
fuses to `[A,C,B]` with `A, C` scoring `1/61 + 1/63` and `B, D` scoring
`1/62`. -/
theorem C4_rrf_fusion :
    (∀ (rrfK : ℚ) (dense sparse : List String) (d : String),
      dense.Nodup → sparse.Nodup →
      lookupScore (rrfScores rrfK dense sparse) d
        = (if d ∈ dense then 1 / (rrfK + (idxIn dense d : ℚ) + 1) else 0)
        + (if d ∈ sparse then 1 / (rrfK + (idxIn sparse d : ℚ) + 1) else 0)) ∧
    (∀ (rrfK : ℚ) (dense sparse : List String) (k : Nat) (d : String),
      d ∈ rrfSortedIds rrfK dense sparse k → d ∈ dense ∨ d ∈ sparse) ∧
    (∀ (rrfK : ℚ) (dense sparse : List String),
      (rrfScores rrfK dense sparse).map Prod.fst = firstOcc (dense ++ sparse) ∧
      (sortDescStable (lookupScore (rrfScores rrfK dense sparse))
          ((rrfScores rrfK dense sparse).map Prod.fst)).Perm
        ((rrfScores rrfK dense sparse).map Prod.fst) ∧
      (sortDescStable (lookupScore (rrfScores rrfK dense sparse))
          ((rrfScores rrfK dense sparse).map Prod.fst)).Pairwise
        (fun a b =>
          lookupScore (rrfScores rrfK dense sparse) b
              < lookupScore (rrfScores rrfK dense sparse) a ∨
          (lookupScore (rrfScores rrfK dense sparse) a
              = lookupScore (rrfScores rrfK dense sparse) b ∧
            idxIn ((rrfScores rrfK dense sparse).map Prod.fst) a
              < idxIn ((rrfScores rrfK dense sparse).map Prod.fst) b))) ∧
    (rrfSortedIds 60 ["A", "B", "C"] ["C", "D", "A"] 3 = ["A", "C", "B"] ∧
     lookupScore (rrfScores 60 ["A", "B", "C"] ["C", "D", "A"]) "A" = 1/61 + 1/63 ∧
     lookupScore (rrfScores 60 ["A", "B", "C"] ["C", "D", "A"]) "C" = 1/61 + 1/63 ∧
     lookupScore (rrfScores 60 ["A", "B", "C"] ["C", "D", "A"]) "B" = 1/62 ∧
     lookupScore (rrfScores 60 ["A", "B", "C"] ["C", "D", "A"]) "D" = 1/62) := by
  have hkeysNodup : ∀ (rrfK : ℚ) (dense sparse : List String),
      ((rrfScores rrfK dense sparse).map Prod.fst).Nodup := by
    intro rrfK dense sparse
    rw [keys_rrfScores]
    exact nodup_foldl_firstOcc (dense ++ sparse) [] List.nodup_nil
  refine ⟨fun rrfK dense sparse d hd hs =>
    lookupScore_rrfScores rrfK dense sparse hd hs d, ?_, ?_, ?_⟩
  · intro rrfK dense sparse k d hd
    have h1 : d ∈ sortDescStable (lookupScore (rrfScores rrfK dense sparse))
        ((rrfScores rrfK dense sparse).map Prod.fst) :=
      List.mem_of_mem_take hd
    have h2 : d ∈ (rrfScores rrfK dense sparse).map Prod.fst :=
      (perm_sortDescStable _ _).mem_iff.mp h1
    rw [keys_rrfScores] at h2
    rcases mem_foldl_firstOcc (dense ++ sparse) [] d h2 with h3 | h3
    · exact absurd h3 (List.not_mem_nil d)
    · exact List.mem_append.mp h3
  · intro rrfK dense sparse
    refine ⟨keys_rrfScores rrfK dense sparse, perm_sortDescStable _ _, ?_⟩
    exact pairwise_sortDescStable_tie _ _ _
      (nodup_pairwise_idxIn _ (hkeysNodup rrfK dense sparse))
  · have hAB : (("A" : String) == "B") = false := by decide
    have hAC : (("A" : String) == "C") = false := by decide
    have hAD : (("A" : String) == "D") = false := by decide
    have hBA : (("B" : String) == "A") = false := by decide
    have hBC : (("B" : String) == "C") = false := by decide
    have hBD : (("B" : String) == "D") = false := by decide
    have hCA : (("C" : String) == "A") = false := by decide
    have hCB : (("C" : String) == "B") = false := by decide
    have hCD : (("C" : String) == "D") = false := by decide
    have hDA : (("D" : String) == "A") = false := by decide
    have hDB : (("D" : String) == "B") = false := by decide
    have hDC : (("D" : String) == "C") = false := by decide
    refine ⟨?_, ?_, ?_, ?_, ?_⟩ <;>
      norm_num [rrfSortedIds, rrfScores, foldRanks, addScore, lookupScore, List.find?,
        sortDescStable, insertDesc, hAB, hAC, hAD, hBA, hBC, hBD, hCA, hCB, hCD,
        hDA, hDB, hDC]

/-- C4 witness: the score formula applied to the spec's example at `B`
(with the duplicate-freeness side conditions discharged), and the
subset property applied to `A` in the fused top-3. -/
theorem C4_rrf_fusion_witness :
    (lookupScore (rrfScores 60 ["A", "B", "C"] ["C", "D", "A"]) "B"
      = (if "B" ∈ ["A", "B", "C"] then 1 / (60 + (idxIn ["A", "B", "C"] "B" : ℚ) + 1) else 0)
      + (if "B" ∈ ["C", "D", "A"] then 1 / (60 + (idxIn ["C", "D", "A"] "B" : ℚ) + 1) else 0)) ∧
    ("A" ∈ ["A", "B", "C"] ∨ "A" ∈ ["C", "D", "A"]) :=
  ⟨C4_rrf_fusion.1 60 ["A", "B", "C"] ["C", "D", "A"] "B" (by decide) (by decide),
   C4_rrf_fusion.2.1 60 ["A", "B", "C"] ["C", "D", "A"] 3 "A"
     (by rw [C4_rrf_fusion.2.2.2.1]; decide)⟩

end ZoteroRag
